import Mathlib

/-!
# Block ingestion and reorganisation controller (`splitter/btc/splitter.go`)

A shallow embedding of the BTC splitter: the linkage checker `CheckBlock`, the
single-height revert `RevertBlock`, the persistence transaction `SaveBlock`, the
overlay reconciler (`UpdateTetherAddress`, `RevertTetherAddress`) and one pass of the
ingestion loop in `Start`.

Conventions of the embedding.

* The relational store is a record of tables, each table a list of rows.  A
  transaction works on a copy of the committed store; `Commit` installs the copy,
  `Rollback` (and `Close` without commit) discards it.
* Heights, timestamps and versions are `int64` in the source and `Int` here.  The sums
  `start + 1` and `start + int64(MaxBatchBlock)` of `CheckBlock` are taken in 64-bit
  two's complement (`wrap64`), as Go computes them.  The subtractions `Height - 1` and
  `tip - Height` and the loop decrement stay inside the 64-bit range for the
  non-negative heights of a chain and are taken exactly.
* Every store or RPC operation that returns an `error` in the source is a `Step`; the
  environment decides through `Faults` which steps fail.
* Calls that are observable from outside (`SendBatchBlock`, `Rollback`, `Commit`,
  `RevertBlock`, `RevertTetherAddress`, `MarkOffset`) are recorded, in program order,
  in a list of `Call`s; the metric counters are the record `Stats`.
* Logging, timing and `time.Sleep` have no counterpart.
-/

namespace Bds

/-! ## Data model -/

/-- Modelled from the spec: the row type `model.Block` (table `btc_block`), whose
declaration lives outside `splitter.go`; the fields are those of the data model. -/
structure Block where
  Height : Int
  Hash : String
  PreviousHash : String
  Timestamp : Int
  Version : Int
  Miner : String
  deriving DecidableEq, Repr

/-- Modelled from the spec: the row type `model.Transaction` (table `btc_transaction`). -/
structure Transaction where
  BlockHeight : Int
  Hash : String
  Version : Int
  deriving DecidableEq, Repr

/-- Modelled from the spec: the row type `model.VIn` (table `btc_vin`). -/
structure VIn where
  BlockHeight : Int
  TxID : String
  PrevTx : String
  PrevIndex : Int
  Address : String
  Value : Int
  deriving DecidableEq, Repr

/-- Modelled from the spec: the row type `model.VOut` (table `btc_vout`). -/
structure VOut where
  BlockHeight : Int
  TxID : String
  Index : Int
  Address : String
  Value : Int
  IsUsed : Bool
  deriving DecidableEq, Repr

/-- Modelled from the spec: the row type `model.OmniTansaction` (table
`btc_omni_transaction`). -/
structure OmniTansaction where
  BlockHeight : Int
  Timestamp : Int
  SendingAddress : String
  ReferenceAddress : String
  deriving DecidableEq, Repr

/-- Modelled from the spec: the row type `model.TetherAddress` (table
`btc_tether_address`). -/
structure TetherAddress where
  Address : String
  BirthTimestamp : Int
  LatestTxTimestamp : Int
  Value : Int
  deriving DecidableEq, Repr

/-- Modelled from the spec: the decoded message `BTCBlockData`: a block header with its
transactions, inputs, outputs and (once fetched) overlay transactions. -/
structure BTCBlockData where
  Block : Block
  Transactions : List Transaction
  VIns : List VIn
  VOuts : List VOut
  OmniTransactions : List OmniTansaction
  deriving DecidableEq, Repr

/-- Modelled from the spec: the address and miner aggregates that `UpdateBlock` and
`revertBlock` maintain (per-address running balance, per-miner coinbase counter). -/
structure Aggregates where
  addresses : List (String × Int)
  miners : List (String × Int)
  deriving DecidableEq, Repr

/-- The relational store: the six tables named in `splitter.go` and the aggregates. -/
structure Store where
  btc_block : List Block
  btc_transaction : List Transaction
  btc_vin : List VIn
  btc_vout : List VOut
  btc_omni_transaction : List OmniTansaction
  btc_tether_address : List TetherAddress
  aggregates : Aggregates
  deriving DecidableEq, Repr

/-- The fields of `SplitterConfig` that the controller branches on, together with
`config.SplitterConfig.DatabaseBTCSetting.Type` (`DatabaseType`). -/
structure SplitterConfig where
  DatabaseEnable : Bool
  MaxBatchBlock : Int
  JSONSchemaValidationEnable : Bool
  OmniEnable : Bool
  DatabaseType : String
  deriving DecidableEq, Repr

/-- The metric counters of `splitter.go`. -/
structure Stats where
  receive_messages : Nat
  parse_data_error : Nat
  validation_error : Nat
  validation_success : Nat
  database_commit : Nat
  database_rollback : Nat
  revert_block : Nat
  deriving DecidableEq, Repr

/-- Every operation of `CheckBlock`, `RevertBlock`, `SaveBlock`, `UpdateTetherAddress`
and `RevertTetherAddress` whose `error` result is inspected by the source. -/
inductive Step where
  | checkFindPrevious
  | checkFindTip
  | begin
  | getBlock
  | findTipGenesis
  | findTipReorg
  | revertAggregates (height : Int)
  | deleteBlock (height : Int)
  | deleteTransaction (height : Int)
  | deleteVIn (height : Int)
  | deleteVOut (height : Int)
  | deleteOmni (height : Int)
  | revertTetherDelete (height : Int)
  | revertTetherQuery (height : Int)
  | revertTetherInsert (height : Int)
  | getBlockMiner
  | insertBlock
  | updateBlockVersion
  | insertVOuts
  | updateVInAddressAndValue
  | insertTransactions
  | updateTransactionVersion
  | insertVIns
  | updateBlock
  | getOmniBlock
  | insertOmni
  | tetherQuery
  | tetherDelete
  | tetherInsert
  | getTetherBalance (address : String)
  | commit
  deriving DecidableEq, Repr

/-- The fault oracle: `faults s = true` when step `s` returns a non-nil error. -/
abbrev Faults := Step → Bool

/-- The oracle under which every operation succeeds. -/
def noFaults : Faults := fun _ => false

/-- Calls observable from outside the controller, in program order. -/
inductive Call where
  | SendBatchBlock (start stop : Int)
  | Rollback
  | Commit
  | RevertBlock (height : Int)
  | RevertTetherAddress (height : Int)
  | SaveBlock (height : Int)
  | SaveBlockReturned (success : Bool)
  | MarkOffset (offset : Nat)
  deriving DecidableEq, Repr

/-! ## Store queries -/

/-- The query `Where("height = ?", h).Find(&rows)` on `btc_block`. -/
def blocksAt (blocks : List Block) (h : Int) : List Block :=
  blocks.filter (fun b => decide (b.Height = h))

/-- The query `Desc("height").Limit(1).Find(&blocks)`: a stored block of maximal
height, `none` for the empty table (the first such row when several share the
height). -/
def latestBlock : List Block → Option Block
  | [] => none
  | b :: bs =>
    match latestBlock bs with
    | none => some b
    | some t => if t.Height ≤ b.Height then some b else some t

/-! ## 64-bit integers -/

/-- The least `int64`. -/
def minInt64 : Int := -9223372036854775808

/-- The greatest `int64`. -/
def maxInt64 : Int := 9223372036854775807

/-- The `int64` that Go's wrapping arithmetic yields for the exact result `x`: the
representative of `x` modulo `2^64` between `minInt64` and `maxInt64`. -/
def wrap64 (x : Int) : Int :=
  (x + 9223372036854775808) % 18446744073709551616 - 9223372036854775808

/-! ## Linkage checker -/

/-- The pair returned by `CheckBlock`, with the re-emit requests it issued. -/
structure CheckResult where
  ok : Bool
  height : Int
  calls : List Call
  deriving DecidableEq, Repr

/-- `BTCSplitter.CheckBlock` (lines 86-133).  The error of `SendBatchBlock` is only
logged by the source, so it has no step.  The sums `start+int64(s.cfg.MaxBatchBlock)`
and `start+1` wrap as `int64` sums do. -/
def CheckBlock (cfg : SplitterConfig) (faults : Faults) (db : Store)
    (curBlock : BTCBlockData) : CheckResult :=
  let height : Int := -1
  if faults Step.checkFindPrevious then ⟨false, height, []⟩
  else
    let preBlock := blocksAt db.btc_block (curBlock.Block.Height - 1)
    if preBlock.length ≠ 1 then
      if faults Step.checkFindTip then ⟨false, height, []⟩
      else
        let start : Int :=
          match latestBlock db.btc_block with
          | none => -1
          | some b => b.Height
        let stop : Int :=
          if curBlock.Block.Height > wrap64 (start + cfg.MaxBatchBlock) then
            wrap64 (start + cfg.MaxBatchBlock)
          else curBlock.Block.Height
        ⟨false, wrap64 (start + 1), [Call.SendBatchBlock (wrap64 (start + 1)) stop]⟩
    else
      match preBlock with
      | [] => ⟨false, height, []⟩
      | p :: _ =>
        if p.Hash ≠ curBlock.Block.PreviousHash then
          ⟨false, p.Height, [Call.SendBatchBlock p.Height curBlock.Block.Height]⟩
        else ⟨true, height, []⟩

/-! ## Helpers of the repository that live outside `splitter.go` -/

/-- The answer of `gojsonschema.Validate`: `Valid()` and `Errors()`. -/
structure ValidationResult where
  valid : Bool
  errors : List String
  deriving DecidableEq, Repr

/-- Modelled from the spec: the functions that `splitter.go` calls and that are declared
in other files of the package or behind the RPC handlers.  Each is given by the effect
it has when it succeeds (whether it fails is decided by `Faults`).  `revertBlock` and
`UpdateBlock` rewrite `vout.is_used`, the address values and the miner counters, as the
comments at their call sites say; `GetBlockMiner` yields the miner name written into the
block; `updateVInAddressAndValue` yields the inputs with address and value resolved;
`updateTransactionVersion` rewrites the transaction table; `GetOmniBlock` and
`GetTetherBalance` are the overlay RPC; `ParseBlock` is the decoder (`none` for a decode
error) and `Validate` the schema validator (`none` for a validator error).  By their
types none of them writes the block table. -/
structure Helpers where
  revertBlock : Int → Store → List VOut × Aggregates
  GetBlockMiner : BTCBlockData → Store → String
  updateVInAddressAndValue : Store → BTCBlockData → List VIn
  updateTransactionVersion : List Int → BTCBlockData → List Transaction → List Transaction
  UpdateBlock : BTCBlockData → Store → List VOut × Aggregates
  GetOmniBlock : Int → List OmniTansaction
  GetTetherBalance : String → Int
  ParseBlock : String → Option BTCBlockData
  Validate : String → Option ValidationResult

/-! ## Revert of one height -/

/-- `BTCSplitter.RevertBlock` (lines 136-182): the aggregates first, then the rows of
the five tables keyed by the height.  The result is the working copy of the
transaction, or the step that failed. -/
def RevertBlock (hp : Helpers) (faults : Faults) (height : Int) (tx : Store) :
    Except Step Store :=
  if faults (Step.revertAggregates height) then Except.error (Step.revertAggregates height)
  else
    let tx : Store :=
      { tx with btc_vout := (hp.revertBlock height tx).1,
                aggregates := (hp.revertBlock height tx).2 }
    if faults (Step.deleteBlock height) then Except.error (Step.deleteBlock height)
    else
      let tx : Store :=
        { tx with btc_block := tx.btc_block.filter (fun b => decide (b.Height ≠ height)) }
      if faults (Step.deleteTransaction height) then
        Except.error (Step.deleteTransaction height)
      else
        let tx : Store :=
          { tx with btc_transaction :=
              (tx.btc_transaction.filter (fun t => decide (t.BlockHeight ≠ height))) }
        if faults (Step.deleteVIn height) then Except.error (Step.deleteVIn height)
        else
          let tx : Store :=
            { tx with btc_vin := tx.btc_vin.filter (fun v => decide (v.BlockHeight ≠ height)) }
          if faults (Step.deleteVOut height) then Except.error (Step.deleteVOut height)
          else
            let tx : Store :=
              { tx with btc_vout :=
                  (tx.btc_vout.filter (fun v => decide (v.BlockHeight ≠ height))) }
            if faults (Step.deleteOmni height) then Except.error (Step.deleteOmni height)
            else
              Except.ok
                { tx with btc_omni_transaction :=
                    (tx.btc_omni_transaction.filter (fun o => decide (o.BlockHeight ≠ height))) }

/-! ## Overlay reconciler -/

/-- The sub-select `SELECT sending_address FROM btc_omni_transaction WHERE block_height=h
UNION SELECT reference_address FROM btc_omni_transaction WHERE block_height=h`. -/
def touchedAddresses (omni : List OmniTansaction) (height : Int) : List String :=
  (omni.filter (fun o => decide (o.BlockHeight = height))).map (fun o => o.SendingAddress) ++
    (omni.filter (fun o => decide (o.BlockHeight = height))).map (fun o => o.ReferenceAddress)

/-- The loop `addressList[k].Value, err = GetTetherBalance(addressList[k].Address)`:
the first address whose balance call fails aborts the loop. -/
def fetchBalances (hp : Helpers) (faults : Faults) :
    List TetherAddress → Except Step (List TetherAddress)
  | [] => Except.ok []
  | a :: rest =>
    if faults (Step.getTetherBalance a.Address) then
      Except.error (Step.getTetherBalance a.Address)
    else
      match fetchBalances hp faults rest with
      | Except.error e => Except.error e
      | Except.ok rest1 => Except.ok ({ a with Value := hp.GetTetherBalance a.Address } :: rest1)

/-- `BTCSplitter.UpdateTetherAddress` (lines 595-656).  The keys of the Go map
`addressMap` are visited in the order of `List.dedup`. -/
def UpdateTetherAddress (hp : Helpers) (faults : Faults) (data : BTCBlockData) (tx : Store) :
    Except Step Store :=
  let height := data.Block.Height
  if faults Step.tetherQuery then Except.error Step.tetherQuery
  else
    let result := tx.btc_tether_address.filter
      (fun a => decide (a.Address ∈ touchedAddresses tx.btc_omni_transaction height))
    let existing : List TetherAddress :=
      (result.filter (fun v => decide (v.Address ≠ ""))).map
        (fun v => { Address := v.Address, BirthTimestamp := v.BirthTimestamp,
                    LatestTxTimestamp := data.Block.Timestamp, Value := 0 })
    let addressHas : List String := existing.map (fun a => a.Address)
    if faults Step.tetherDelete then Except.error Step.tetherDelete
    else
      let tx : Store :=
        { tx with btc_tether_address := (tx.btc_tether_address.filter
            (fun a => decide (a.Address ∉ touchedAddresses tx.btc_omni_transaction height))) }
      let addressMap : List String :=
        ((data.OmniTransactions.map (fun v => [v.SendingAddress, v.ReferenceAddress])).flatten.filter
          (fun k => decide (k ≠ ""))).dedup
      let fresh : List TetherAddress :=
        (addressMap.filter (fun k => decide (k ∉ addressHas))).map
          (fun k => { Address := k, BirthTimestamp := data.Block.Timestamp,
                      LatestTxTimestamp := data.Block.Timestamp, Value := 0 })
      match fetchBalances hp faults (existing ++ fresh) with
      | Except.error e => Except.error e
      | Except.ok addressList =>
        if faults Step.tetherInsert then Except.error Step.tetherInsert
        else Except.ok { tx with btc_tether_address := tx.btc_tether_address ++ addressList }

/-- `BTCSplitter.RevertTetherAddress` (lines 659-690).  The scalar sub-select
`(SELECT timestamp FROM btc_block WHERE height=h)` is NULL when no block is stored at
`h` (the comparison then selects no row) and is an SQL error when several are. -/
def RevertTetherAddress (hp : Helpers) (faults : Faults) (height : Int) (tx : Store) :
    Except Step Store :=
  if faults (Step.revertTetherDelete height) then Except.error (Step.revertTetherDelete height)
  else
    match blocksAt tx.btc_block height with
    | _ :: _ :: _ => Except.error (Step.revertTetherDelete height)
    | stored =>
      let tx : Store :=
        { tx with btc_tether_address := (tx.btc_tether_address.filter
            (fun a => decide (¬ ∃ b ∈ stored, a.BirthTimestamp = b.Timestamp))) }
      if faults (Step.revertTetherQuery height) then
        Except.error (Step.revertTetherQuery height)
      else
        let result := tx.btc_tether_address.filter
          (fun a => decide (a.Address ∈ touchedAddresses tx.btc_omni_transaction height))
        match fetchBalances hp faults result with
        | Except.error e => Except.error e
        | Except.ok addressList =>
          if faults (Step.revertTetherInsert height) then
            Except.error (Step.revertTetherInsert height)
          else Except.ok { tx with btc_tether_address := tx.btc_tether_address ++ addressList }

/-! ## Persistence transaction -/

/-- What a call of `SaveBlock` leaves behind: the returned error (`none` for `nil`,
otherwise the step that failed), the committed store, the counters and the calls made. -/
structure SaveResult where
  err : Option Step
  db : Store
  stats : Stats
  calls : List Call
  deriving DecidableEq, Repr

/-- The state threaded through the transaction: its working copy, the counters and the
calls made so far. -/
structure TxState where
  tx : Store
  stats : Stats
  calls : List Call
  deriving DecidableEq, Repr

/-- The error block repeated throughout `SaveBlock`:
`_ = tx.Rollback(); log.DetailError(err); stats.Add(MetricDatabaseRollback, 1); return err`.
The committed store `db` is what remains. -/
def rollbackWith (db : Store) (stats : Stats) (calls : List Call) (e : Step) : SaveResult :=
  { err := some e, db := db,
    stats := { stats with database_rollback := stats.database_rollback + 1 },
    calls := calls ++ [Call.Rollback] }

/-- The heights visited by `for i := top; i >= bottom; i--`, in order. -/
def heightsDown (top bottom : Int) : List Int :=
  (List.range (top - bottom + 1).toNat).map (fun (k : Nat) => top - (k : Int))

/-- The body of the loop of lines 353-371 run over the given heights: `RevertBlock`,
then `RevertTetherAddress` when the overlay is enabled, then one more `revert_block`.
A failure hands back the failed step and the state reached. -/
def revertLoop (cfg : SplitterConfig) (hp : Helpers) (faults : Faults) :
    List Int → TxState → Except (Step × TxState) TxState
  | [], s => Except.ok s
  | i :: rest, s =>
    match RevertBlock hp faults i s.tx with
    | Except.error e => Except.error (e, { s with calls := s.calls ++ [Call.RevertBlock i] })
    | Except.ok tx1 =>
      if cfg.OmniEnable then
        match RevertTetherAddress hp faults i tx1 with
        | Except.error e =>
          Except.error (e, { s with calls :=
            s.calls ++ [Call.RevertBlock i, Call.RevertTetherAddress i] })
        | Except.ok tx2 =>
          revertLoop cfg hp faults rest
            { tx := tx2,
              stats := { s.stats with revert_block := s.stats.revert_block + 1 },
              calls := s.calls ++ [Call.RevertBlock i, Call.RevertTetherAddress i] }
      else
        revertLoop cfg hp faults rest
          { tx := tx1,
            stats := { s.stats with revert_block := s.stats.revert_block + 1 },
            calls := s.calls ++ [Call.RevertBlock i] }

/-- Lines 472-498 of `SaveBlock`: with the overlay enabled, fetch the overlay
transactions of the height, insert them and refresh the overlay addresses. -/
def writeOverlay (cfg : SplitterConfig) (hp : Helpers) (faults : Faults)
    (data : BTCBlockData) (tx : Store) : Except Step Store :=
  if cfg.OmniEnable then
    if faults Step.getOmniBlock then Except.error Step.getOmniBlock
    else
      let data : BTCBlockData :=
        { data with OmniTransactions := hp.GetOmniBlock data.Block.Height }
      if faults Step.insertOmni then Except.error Step.insertOmni
      else
        let tx : Store :=
          { tx with btc_omni_transaction := tx.btc_omni_transaction ++ data.OmniTransactions }
        UpdateTetherAddress hp faults data tx
  else Except.ok tx

/-- Lines 374-407 of `SaveBlock`: fill in the miner, insert the block row and, for a
backend other than PostgreSQL, rewrite its `version` column. -/
def writeHeader (cfg : SplitterConfig) (hp : Helpers) (faults : Faults)
    (data : BTCBlockData) (tx : Store) : Except Step (BTCBlockData × Store) :=
  let version := data.Block.Version
  if faults Step.getBlockMiner then Except.error Step.getBlockMiner
  else
    let data : BTCBlockData :=
      { data with Block := { data.Block with Miner := hp.GetBlockMiner data tx } }
    if faults Step.insertBlock then Except.error Step.insertBlock
    else
      let tx : Store := { tx with btc_block := tx.btc_block ++ [data.Block] }
      if cfg.DatabaseType ≠ "postgres" then
        if faults Step.updateBlockVersion then Except.error Step.updateBlockVersion
        else
          Except.ok (data,
            { tx with btc_block := (tx.btc_block.map (fun b =>
                if b.Height = data.Block.Height then { b with Version := version } else b)) })
      else Except.ok (data, tx)

/-- Lines 409-426 of `SaveBlock`: insert the outputs, then resolve address and value of
the inputs against the stored outputs. -/
def writeOutputs (hp : Helpers) (faults : Faults) (data : BTCBlockData) (tx : Store) :
    Except Step (BTCBlockData × Store) :=
  if faults Step.insertVOuts then Except.error Step.insertVOuts
  else
    let tx : Store := { tx with btc_vout := tx.btc_vout ++ data.VOuts }
    if faults Step.updateVInAddressAndValue then Except.error Step.updateVInAddressAndValue
    else Except.ok ({ data with VIns := hp.updateVInAddressAndValue tx data }, tx)

/-- Lines 428-450 of `SaveBlock`: insert the transactions and, for a backend other than
PostgreSQL, rewrite their `version` column. -/
def writeTransactions (cfg : SplitterConfig) (hp : Helpers) (faults : Faults)
    (data : BTCBlockData) (tx : Store) : Except Step Store :=
  let txVersion : List Int := data.Transactions.map (fun v => v.Version)
  if faults Step.insertTransactions then Except.error Step.insertTransactions
  else
    let tx : Store := { tx with btc_transaction := tx.btc_transaction ++ data.Transactions }
    if cfg.DatabaseType ≠ "postgres" then
      if faults Step.updateTransactionVersion then Except.error Step.updateTransactionVersion
      else
        Except.ok
          { tx with btc_transaction :=
              hp.updateTransactionVersion txVersion data tx.btc_transaction }
    else Except.ok tx

/-- Lines 452-469 of `SaveBlock`: insert the inputs, then `UpdateBlock`. -/
def writeInputs (hp : Helpers) (faults : Faults) (data : BTCBlockData) (tx : Store) :
    Except Step Store :=
  if faults Step.insertVIns then Except.error Step.insertVIns
  else
    let tx : Store := { tx with btc_vin := tx.btc_vin ++ data.VIns }
    if faults Step.updateBlock then Except.error Step.updateBlock
    else
      Except.ok
        { tx with btc_vout := (hp.UpdateBlock data tx).1,
                  aggregates := (hp.UpdateBlock data tx).2 }

/-- Lines 374-498 of `SaveBlock`: every write of the block inside the transaction, up to
but excluding `Commit`.  Each `if err != nil` of the source is the `Except.error` of the
step; the caller runs the error block once for whichever step failed. -/
def writeBlock (cfg : SplitterConfig) (hp : Helpers) (faults : Faults)
    (data : BTCBlockData) (tx : Store) : Except Step Store :=
  match writeHeader cfg hp faults data tx with
  | Except.error e => Except.error e
  | Except.ok (data, tx) =>
    match writeOutputs hp faults data tx with
    | Except.error e => Except.error e
    | Except.ok (data, tx) =>
      match writeTransactions cfg hp faults data tx with
      | Except.error e => Except.error e
      | Except.ok tx =>
        match writeInputs hp faults data tx with
        | Except.error e => Except.error e
        | Except.ok tx => writeOverlay cfg hp faults data tx

/-- Lines 374-513 of `SaveBlock`: the writes, then `Commit`.  On success the working copy
becomes the committed store and `database_commit` grows by one. -/
def writeAndCommit (cfg : SplitterConfig) (hp : Helpers) (faults : Faults) (db : Store)
    (s : TxState) (data : BTCBlockData) : SaveResult :=
  match writeBlock cfg hp faults data s.tx with
  | Except.error e => rollbackWith db s.stats s.calls e
  | Except.ok tx =>
    if faults Step.commit then rollbackWith db s.stats s.calls Step.commit
    else
      { err := none, db := tx,
        stats := { s.stats with database_commit := s.stats.database_commit + 1 },
        calls := s.calls ++ [Call.Commit] }

/-- `BTCSplitter.SaveBlock` (lines 298-513) on the committed store `db` with counters
`stats`.  `tx.Get(blockTemp)` is the first row of the height (its result is consulted
only for a non-zero height).  When the tip lookup of the height-0 branch fails the
source returns the error directly (lines 324-327).  In the reorg branch the table
cannot be empty, a row of the height having just been found; the `none` case of that
tip lookup, where the source would index an empty slice, is never reached. -/
def SaveBlock (cfg : SplitterConfig) (hp : Helpers) (faults : Faults) (db : Store)
    (stats : Stats) (data : BTCBlockData) : SaveResult :=
  if faults Step.begin then rollbackWith db stats [] Step.begin
  else
    let tx : Store := db
    if faults Step.getBlock then rollbackWith db stats [] Step.getBlock
    else
      let blockTemp := tx.btc_block.find? (fun b => decide (b.Height = data.Block.Height))
      if data.Block.Height = 0 ∧ faults Step.findTipGenesis = true then
        { err := some Step.findTipGenesis, db := db, stats := stats, calls := [] }
      else if data.Block.Height = 0 ∧ latestBlock tx.btc_block ≠ none then
        { err := none, db := db, stats := stats, calls := [Call.Rollback] }
      else
        match blockTemp with
        | none => writeAndCommit cfg hp faults db ⟨tx, stats, []⟩ data
        | some stored =>
          if data.Block.Height ≠ 0 then
            if stored.Hash = data.Block.Hash then
              { err := none, db := db, stats := stats, calls := [Call.Rollback] }
            else if faults Step.findTipReorg then rollbackWith db stats [] Step.findTipReorg
            else
              match latestBlock tx.btc_block with
              | none => rollbackWith db stats [] Step.findTipReorg
              | some top =>
                if top.Height - data.Block.Height > 6 then
                  { err := none, db := db, stats := stats, calls := [Call.Rollback] }
                else
                  match revertLoop cfg hp faults (heightsDown top.Height data.Block.Height)
                      ⟨tx, stats, []⟩ with
                  | Except.error (e, s) => rollbackWith db s.stats s.calls e
                  | Except.ok s => writeAndCommit cfg hp faults db s data
          else writeAndCommit cfg hp faults db ⟨tx, stats, []⟩ data

/-! ## Ingestion loop -/

/-- A message delivered by the bus: its payload and its offset. -/
structure Message where
  Data : String
  Offset : Nat
  deriving DecidableEq, Repr

/-- The state owned by the controller between messages: the committed store, the set
`missedBlockList`, the counters and the calls made so far. -/
structure LoopState where
  db : Store
  missedBlockList : List Int
  stats : Stats
  calls : List Call
  deriving DecidableEq, Repr

/-- How one pass from the label `START` ends: `goto START` or the next message. -/
inductive Outcome where
  | retry
  | next
  deriving DecidableEq, Repr

/-- `BTCSplitter.jsonSchemaValid` (lines 275-296): the verdict and the counters. -/
def jsonSchemaValid (hp : Helpers) (stats : Stats) (data : String) : Bool × Stats :=
  match hp.Validate data with
  | none => (false, stats)
  | some result =>
    if !result.valid then
      match result.errors with
      | _ :: _ => (false, stats)
      | [] => (true, { stats with validation_error := stats.validation_error + 1 })
    else (true, { stats with validation_success := stats.validation_success + 1 })

/-- Lines 257-269 of `Start`: with persistence enabled, `SaveBlock`; an error means
`goto START`, success marks the offset of the message. -/
def saveAndMark (cfg : SplitterConfig) (hp : Helpers) (faults : Faults) (msg : Message)
    (data : BTCBlockData) (s : LoopState) : LoopState × Outcome :=
  if cfg.DatabaseEnable then
    let r := SaveBlock cfg hp faults s.db s.stats data
    let calls := s.calls ++ [Call.SaveBlock data.Block.Height] ++ r.calls
    match r.err with
    | some _ =>
      ({ s with db := r.db, stats := r.stats,
                calls := calls ++ [Call.SaveBlockReturned false] }, Outcome.retry)
    | none =>
      ({ s with db := r.db, stats := r.stats,
                calls := calls ++ [Call.SaveBlockReturned true, Call.MarkOffset msg.Offset] },
        Outcome.next)
  else (s, Outcome.next)

/-- One pass of the body of `Start` from the label `START` (lines 223-269): advisory
schema validation, decoding, the linkage check unless the height is in
`missedBlockList`, then persistence and the offset mark. -/
def attempt (cfg : SplitterConfig) (hp : Helpers) (faults : Faults) (msg : Message)
    (s : LoopState) : LoopState × Outcome :=
  let stats : Stats :=
    if cfg.JSONSchemaValidationEnable then (jsonSchemaValid hp s.stats msg.Data).2 else s.stats
  match hp.ParseBlock msg.Data with
  | none =>
    ({ s with stats := { stats with parse_data_error := stats.parse_data_error + 1 } },
      Outcome.retry)
  | some data =>
    if data.Block.Height ∉ s.missedBlockList then
      let r := CheckBlock cfg faults s.db data
      if data.Block.Height ≠ 0 ∧ r.ok = false then
        ({ s with stats := stats, calls := s.calls ++ r.calls }, Outcome.next)
      else
        saveAndMark cfg hp faults msg data
          { s with stats := stats, calls := s.calls ++ r.calls }
    else
      saveAndMark cfg hp faults msg data
        { s with stats := stats,
                 missedBlockList :=
                   (s.missedBlockList.filter (fun h => decide (h ≠ data.Block.Height))) }

/-- The passes of one message: pass `k` runs under the faults `faults k`; `fuel` bounds
the number of passes.  The flag tells whether the loop moved on to the next message
(`true`) or is still retrying when the fuel is spent (`false`). -/
def retryLoop (cfg : SplitterConfig) (hp : Helpers) (faults : Nat → Faults) (msg : Message) :
    Nat → Nat → LoopState → LoopState × Bool
  | 0, _, s => (s, false)
  | fuel + 1, k, s =>
    match attempt cfg hp (faults k) msg s with
    | (s1, Outcome.next) => (s1, true)
    | (s1, Outcome.retry) => retryLoop cfg hp faults msg fuel (k + 1) s1

/-- One iteration of the `for`/`select` of `Start` (lines 215-271) for a delivered
message: count it, then run the passes. -/
def iteration (cfg : SplitterConfig) (hp : Helpers) (faults : Nat → Faults) (msg : Message)
    (fuel : Nat) (s : LoopState) : LoopState × Bool :=
  retryLoop cfg hp faults msg fuel 0
    { s with stats := { s.stats with receive_messages := s.stats.receive_messages + 1 } }

/-- The `for`/`select` loop of `BTCSplitter.Start` (lines 215-271) over the messages the
bus delivers, message `n` under the faults `faults n`; it stops where a message is still
being retried when the fuel is spent.  The preamble of `Start` (overlay back-fill,
consumer and cron start) is not part of it. -/
def Start (cfg : SplitterConfig) (hp : Helpers) (faults : Nat → Nat → Faults) (fuel : Nat) :
    List Message → Nat → LoopState → LoopState
  | [], _, s => s
  | msg :: rest, n, s =>
    match iteration cfg hp (faults n) msg fuel s with
    | (s1, true) => Start cfg hp faults fuel rest (n + 1) s1
    | (s1, false) => s1

/-- The counters with which a pass goes on after the advisory schema validation of
lines 224-233; they are the counters handed to `SaveBlock` in that pass. -/
def validatedStats (cfg : SplitterConfig) (hp : Helpers) (msg : Message) (stats : Stats) :
    Stats :=
  if cfg.JSONSchemaValidationEnable then (jsonSchemaValid hp stats msg.Data).2 else stats

/-- The state reached from `s` by `n` passes on the message, the first of them under the
faults `faults k`, the next under `faults (k + 1)`, and so on. -/
def passFrom (cfg : SplitterConfig) (hp : Helpers) (faults : Nat → Faults) (msg : Message) :
    Nat → LoopState → Nat → LoopState
  | _, s, 0 => s
  | k, s, n + 1 => passFrom cfg hp faults msg (k + 1) (attempt cfg hp (faults k) msg s).1 n

/-- The state in which pass `n` (counted from 0) of the iteration for a message starts:
the message is counted, then `n` passes are run. -/
def passStart (cfg : SplitterConfig) (hp : Helpers) (faults : Nat → Faults) (msg : Message)
    (s : LoopState) (n : Nat) : LoopState :=
  passFrom cfg hp faults msg 0
    { s with stats := { s.stats with receive_messages := s.stats.receive_messages + 1 } } n

/-! ## Store invariants -/

/-- P1, parent continuity: every stored block of positive height has a stored parent
one height below whose hash is its `PreviousHash`. -/
def parentContinuity (blocks : List Block) : Prop :=
  ∀ b ∈ blocks, 0 < b.Height →
    ∃ p ∈ blocks, p.Height = b.Height - 1 ∧ p.Hash = b.PreviousHash

instance (blocks : List Block) : Decidable (parentContinuity blocks) := by
  unfold parentContinuity
  infer_instance

/-- The heights of the `RevertBlock` calls in a list of calls, in order. -/
def revertedHeights : List Call → List Int
  | [] => []
  | Call.RevertBlock h :: rest => h :: revertedHeights rest
  | _ :: rest => revertedHeights rest

/-- Every `MarkOffset` in the list comes directly after a successful return of
`SaveBlock`. -/
def markedAfterSave (calls : List Call) : Prop :=
  ∀ (before after : List Call) (o : Nat), calls = before ++ Call.MarkOffset o :: after →
    ∃ earlier, before = earlier ++ [Call.SaveBlockReturned true]

/-- No `MarkOffset` occurs in the list. -/
def unmarked (calls : List Call) : Prop := ∀ o, Call.MarkOffset o ∉ calls

/-- The calls a transaction makes: `Rollback`, `Commit` and the two reverts. -/
def transactionCall : Call → Bool
  | Call.Rollback => true
  | Call.Commit => true
  | Call.RevertBlock _ => true
  | Call.RevertTetherAddress _ => true
  | _ => false

/-- The condition, on the committed store alone, under which `SaveBlock` drops `B`
without writing: a height-0 block with some block stored, or a block whose height is
stored with the same hash, or with another hash and a tip more than six above. -/
def silentlyDropped (db : Store) (B : BTCBlockData) : Prop :=
  (B.Block.Height = 0 ∧ db.btc_block ≠ []) ∨
    (B.Block.Height ≠ 0 ∧
      ∃ stored, db.btc_block.find? (fun b => decide (b.Height = B.Block.Height)) = some stored ∧
        (stored.Hash = B.Block.Hash ∨
          ∃ top, latestBlock db.btc_block = some top ∧ top.Height - B.Block.Height > 6))

/-- The block table after `SaveBlock` has committed `B` on top of the rows `pre` that it
kept: the kept rows followed by the row of `B` (which is `B.Block` up to the miner
name), possibly passed through the `version` rewrite `f`, which leaves height, hash and
previous hash of every row alone and does not change the new row. -/
def committedTable (B : BTCBlockData) (pre blocks : List Block) : Prop :=
  ∃ (b1 : Block) (f : Block → Block), blocks = (pre ++ [b1]).map f ∧ f b1 = b1 ∧
    (∀ b, (f b).Height = b.Height ∧ (f b).Hash = b.Hash ∧
      (f b).PreviousHash = b.PreviousHash) ∧
    { b1 with Miner := B.Block.Miner } = B.Block

/-! ## Concrete inputs used by the examples -/

/-- The store with no rows. -/
def emptyStore : Store := ⟨[], [], [], [], [], [], ⟨[], []⟩⟩

/-- A store whose only rows are the given blocks. -/
def storeOf (blocks : List Block) : Store := { emptyStore with btc_block := blocks }

/-- A synthetic block header. -/
def header (height : Int) (hash previousHash : String) : Block :=
  ⟨height, hash, previousHash, 1600000000 + height, 1, ""⟩

/-- A decoded message carrying only a header. -/
def message (b : Block) : BTCBlockData := ⟨b, [], [], [], []⟩

/-- A configuration with persistence enabled, overlay disabled, PostgreSQL backend. -/
def config (maxBatchBlock : Int) : SplitterConfig :=
  { DatabaseEnable := true, MaxBatchBlock := maxBatchBlock,
    JSONSchemaValidationEnable := false, OmniEnable := false, DatabaseType := "postgres" }

/-- Helpers that do nothing beyond what `SaveBlock` itself writes: no aggregate
change, miner `"unknown"`, inputs left as decoded, no overlay transaction, every payload
valid; the decoder is given. -/
def plainHelpers (decode : String → Option BTCBlockData) : Helpers :=
  { revertBlock := fun _ tx => (tx.btc_vout, tx.aggregates),
    GetBlockMiner := fun _ _ => "unknown",
    updateVInAddressAndValue := fun _ data => data.VIns,
    updateTransactionVersion := fun _ _ txs => txs,
    UpdateBlock := fun _ tx => (tx.btc_vout, tx.aggregates),
    GetOmniBlock := fun _ => [],
    GetTetherBalance := fun _ => 0,
    ParseBlock := decode,
    Validate := fun _ => some ⟨true, []⟩ }

/-- All counters at zero. -/
def zeroStats : Stats := ⟨0, 0, 0, 0, 0, 0, 0⟩

/-- The chain `h0, h1, ..., h7` of eight blocks, stored in order. -/
def chainTo7 : List Block :=
  [header 0 "h0" "", header 1 "h1" "h0", header 2 "h2" "h1", header 3 "h3" "h2",
   header 4 "h4" "h3", header 5 "h5" "h4", header 6 "h6" "h5", header 7 "h7" "h6"]

/-- The chain `h100, h101, h102` of the reorganisation scenario. -/
def chain100To102 : List Block :=
  [header 100 "h100" "h99", header 101 "h101" "h100", header 102 "h102" "h101"]

/-- The fault oracle under which exactly the given step fails. -/
def onlyFault (s : Step) : Faults := fun t => decide (t = s)

/-- A configuration like `config` with the overlay enabled. -/
def overlayConfig (maxBatchBlock : Int) : SplitterConfig :=
  { config maxBatchBlock with OmniEnable := true }

/-- Helpers like `plainHelpers` whose overlay RPC reports the balance 40 for every
address and no overlay transaction for any height. -/
def overlayHelpers : Helpers :=
  { plainHelpers (fun _ => none) with GetTetherBalance := fun _ => 40 }

/-- A store in which block `h101` (timestamp 1600000101) carries one overlay
transaction from address `A` to address `B`; `A` was born in that block, `B` was born
earlier and its stored balance is 50. -/
def overlayStore : Store :=
  { storeOf [header 100 "h100" "h99", header 101 "h101" "h100"] with
    btc_omni_transaction := [⟨101, 1600000101, "A", "B"⟩],
    btc_tether_address :=
      [⟨"A", 1600000101, 1600000101, 5⟩, ⟨"B", 1600000050, 1600000101, 50⟩] }

/-! ## Facts about the store queries -/

theorem latestBlock_eq_none (bs : List Block) : latestBlock bs = none ↔ bs = [] := by
  cases bs with
  | nil => simp [latestBlock]
  | cons b bs =>
    simp only [latestBlock]
    cases latestBlock bs with
    | none => simp
    | some t => by_cases h : t.Height ≤ b.Height <;> simp [h]

theorem latestBlock_mem {bs : List Block} {t : Block} (h : latestBlock bs = some t) :
    t ∈ bs := by
  induction bs generalizing t with
  | nil => simp [latestBlock] at h
  | cons b bs ih =>
    simp only [latestBlock] at h
    cases hl : latestBlock bs with
    | none =>
      rw [hl] at h
      simp only [Option.some.injEq] at h
      simp [h]
    | some u =>
      rw [hl] at h
      by_cases hc : u.Height ≤ b.Height
      · simp only [hc, if_true, Option.some.injEq] at h
        simp [h]
      · simp only [hc, if_false, Option.some.injEq] at h
        subst h
        exact List.mem_cons_of_mem _ (ih hl)

theorem latestBlock_le {bs : List Block} {t : Block} (h : latestBlock bs = some t) :
    ∀ b ∈ bs, b.Height ≤ t.Height := by
  induction bs generalizing t with
  | nil => simp
  | cons c bs ih =>
    simp only [latestBlock] at h
    intro b hb
    cases hl : latestBlock bs with
    | none =>
      rw [hl] at h
      simp only [Option.some.injEq] at h
      have hnil : bs = [] := (latestBlock_eq_none bs).1 hl
      subst hnil
      subst h
      simp only [List.mem_singleton] at hb
      subst hb
      exact le_refl _
    | some u =>
      rw [hl] at h
      have hu := ih hl
      rcases List.mem_cons.1 hb with hbc | hbs
      · subst hbc
        by_cases hc : u.Height ≤ b.Height
        · simp only [hc, if_true, Option.some.injEq] at h
          subst h
          exact le_refl _
        · simp only [hc, if_false, Option.some.injEq] at h
          subst h
          omega
      · have h1 := hu b hbs
        by_cases hc : u.Height ≤ c.Height
        · simp only [hc, if_true, Option.some.injEq] at h
          subst h
          omega
        · simp only [hc, if_false, Option.some.injEq] at h
          subst h
          exact h1

theorem wrap64_of_inRange {x : Int} (hlo : minInt64 ≤ x) (hhi : x ≤ maxInt64) :
    wrap64 x = x := by
  unfold wrap64
  unfold minInt64 at hlo
  unfold maxInt64 at hhi
  omega

theorem mem_blocksAt {bs : List Block} {h : Int} {b : Block} :
    b ∈ blocksAt bs h ↔ b ∈ bs ∧ b.Height = h := by
  simp [blocksAt]

/-! ## Linkage checker: the decision table -/

/-- C1. When the query for the previous block succeeds, `CheckBlock` answers `ok = true`
exactly when one single block is stored at height `B.Height - 1` and its hash is
`B.PreviousHash`; in that case the returned height is `-1` and no `SendBatchBlock`
request is issued. -/
theorem CheckBlock_ok_iff (cfg : SplitterConfig) (faults : Faults) (db : Store)
    (B : BTCBlockData) (hq : faults Step.checkFindPrevious = false) :
    ((CheckBlock cfg faults db B).ok = true ↔
        ∃ p, blocksAt db.btc_block (B.Block.Height - 1) = [p] ∧
          p.Hash = B.Block.PreviousHash) ∧
      ((CheckBlock cfg faults db B).ok = true →
        (CheckBlock cfg faults db B).height = -1 ∧ (CheckBlock cfg faults db B).calls = []) := by
  unfold CheckBlock
  simp only [hq, Bool.false_eq_true, if_false]
  rcases hpre : blocksAt db.btc_block (B.Block.Height - 1) with _ | ⟨p, rest⟩
  · simp
    split <;> simp
  · cases rest with
    | nil =>
      by_cases hh : p.Hash = B.Block.PreviousHash <;> simp [hh]
    | cons q rest =>
      simp
      split <;> simp

/-- Witness for C1: the store holds `h4` at height 4 and the incoming block 5 names it
as parent. -/
theorem CheckBlock_ok_iff_witness :
    noFaults Step.checkFindPrevious = false ∧
    (((CheckBlock (config 100) noFaults (storeOf [header 4 "h4" "h3"])
          (message (header 5 "h5" "h4"))).ok = true ↔
        ∃ p, blocksAt (storeOf [header 4 "h4" "h3"]).btc_block
              ((message (header 5 "h5" "h4")).Block.Height - 1) = [p] ∧
          p.Hash = (message (header 5 "h5" "h4")).Block.PreviousHash) ∧
      ((CheckBlock (config 100) noFaults (storeOf [header 4 "h4" "h3"])
          (message (header 5 "h5" "h4"))).ok = true →
        (CheckBlock (config 100) noFaults (storeOf [header 4 "h4" "h3"])
          (message (header 5 "h5" "h4"))).height = -1 ∧
        (CheckBlock (config 100) noFaults (storeOf [header 4 "h4" "h3"])
          (message (header 5 "h5" "h4"))).calls = [])) :=
  ⟨rfl, CheckBlock_ok_iff (config 100) noFaults (storeOf [header 4 "h4" "h3"])
    (message (header 5 "h5" "h4")) rfl⟩

/-- C2 as stated fails: on the empty store with `MaxBatchBlock = 100` and an incoming
block of height 105 the request is `SendBatchBlock(0, 99)`, not
`SendBatchBlock(0, min(105, 100))`. -/
theorem CheckBlock_empty_store_counterexample :
    (storeOf []).btc_block = [] ∧ (0 : Int) < (config 100).MaxBatchBlock ∧
    (CheckBlock (config 100) noFaults (storeOf []) (message (header 105 "h105" "h104"))).calls
      = [Call.SendBatchBlock 0 99] ∧
    (CheckBlock (config 100) noFaults (storeOf []) (message (header 105 "h105" "h104"))).calls
      ≠ [Call.SendBatchBlock 0 (min (message (header 105 "h105" "h104")).Block.Height
            (config 100).MaxBatchBlock)] := by
  decide

/-- C2, amended. When the store holds no block and both store queries succeed, for every
`MaxBatchBlock` an `int` can hold other than the least one (so for every positive one)
`CheckBlock` issues exactly the one request
`SendBatchBlock(0, min(B.Height, MaxBatchBlock - 1))` and returns `(false, 0)`. -/
theorem CheckBlock_empty_store (cfg : SplitterConfig) (faults : Faults) (db : Store)
    (B : BTCBlockData) (hq : faults Step.checkFindPrevious = false)
    (ht : faults Step.checkFindTip = false) (hlo : minInt64 < cfg.MaxBatchBlock)
    (hhi : cfg.MaxBatchBlock ≤ maxInt64) (hempty : db.btc_block = []) :
    (CheckBlock cfg faults db B).calls
        = [Call.SendBatchBlock 0 (min B.Block.Height (cfg.MaxBatchBlock - 1))] ∧
      (CheckBlock cfg faults db B).ok = false ∧ (CheckBlock cfg faults db B).height = 0 := by
  have hsum : wrap64 (-1 + cfg.MaxBatchBlock) = cfg.MaxBatchBlock - 1 := by
    rw [wrap64_of_inRange (by unfold minInt64 at *; omega) (by unfold maxInt64 at *; omega)]
    omega
  have hone : wrap64 (-1 + 1) = 0 := by decide
  unfold CheckBlock
  simp only [hq, ht, hempty, blocksAt, latestBlock, List.filter_nil, List.length_nil, hsum,
    hone]
  have hmin : (if B.Block.Height > cfg.MaxBatchBlock - 1 then cfg.MaxBatchBlock - 1
      else B.Block.Height) = min B.Block.Height (cfg.MaxBatchBlock - 1) := by
    split <;> omega
  rw [hmin]
  simp

/-- Witness for C2 (amended): the empty store and block 105 with `MaxBatchBlock = 100`. -/
theorem CheckBlock_empty_store_witness :
    noFaults Step.checkFindPrevious = false ∧ noFaults Step.checkFindTip = false ∧
    minInt64 < (config 100).MaxBatchBlock ∧ (config 100).MaxBatchBlock ≤ maxInt64 ∧
    (storeOf []).btc_block = [] ∧
    ((CheckBlock (config 100) noFaults (storeOf []) (message (header 105 "h105" "h104"))).calls
        = [Call.SendBatchBlock 0 (min (message (header 105 "h105" "h104")).Block.Height
            ((config 100).MaxBatchBlock - 1))] ∧
      (CheckBlock (config 100) noFaults (storeOf [])
        (message (header 105 "h105" "h104"))).ok = false ∧
      (CheckBlock (config 100) noFaults (storeOf [])
        (message (header 105 "h105" "h104"))).height = 0) :=
  ⟨rfl, rfl, by decide, by decide, rfl, CheckBlock_empty_store (config 100) noFaults
    (storeOf []) (message (header 105 "h105" "h104")) rfl rfl (by decide) (by decide) rfl⟩

/-- C3 as stated fails: with tip `h10`, an incoming block of height 500 and
`MaxBatchBlock = 2^63 - 1` the 64-bit sum `10 + MaxBatchBlock` wraps to
`-9223372036854775799`, and the request is `SendBatchBlock(11, -9223372036854775799)`,
not `SendBatchBlock(11, min(500, 10 + MaxBatchBlock))`. -/
theorem CheckBlock_gap_above_tip_counterexample :
    latestBlock (storeOf [header 9 "h9" "h8", header 10 "h10" "h9"]).btc_block
      = some (header 10 "h10" "h9") ∧
    (header 10 "h10" "h9").Height < (message (header 500 "h500" "h499")).Block.Height - 1 ∧
    (0 : Int) < (config 9223372036854775807).MaxBatchBlock ∧
    (config 9223372036854775807).MaxBatchBlock ≤ maxInt64 ∧
    (CheckBlock (config 9223372036854775807) noFaults
        (storeOf [header 9 "h9" "h8", header 10 "h10" "h9"])
        (message (header 500 "h500" "h499"))).calls
      = [Call.SendBatchBlock 11 (-9223372036854775799)] ∧
    (CheckBlock (config 9223372036854775807) noFaults
        (storeOf [header 9 "h9" "h8", header 10 "h10" "h9"])
        (message (header 500 "h500" "h499"))).calls
      ≠ [Call.SendBatchBlock ((header 10 "h10" "h9").Height + 1)
          (min (message (header 500 "h500" "h499")).Block.Height
            ((header 10 "h10" "h9").Height + (config 9223372036854775807).MaxBatchBlock))] := by
  decide

/-- C3, amended. Let the tip `T` of the store lie below `B.Height - 1`, let
`MaxBatchBlock` be positive and let the sum `T.Height + MaxBatchBlock` stay within the
64-bit range.  Then no block is stored at `B.Height - 1`, and (both store queries
succeeding) `CheckBlock` issues exactly the one request
`SendBatchBlock(T.Height + 1, min(B.Height, T.Height + MaxBatchBlock))` and returns
`(false, T.Height + 1)`; the requested window holds at most `MaxBatchBlock` heights. -/
theorem CheckBlock_gap_above_tip (cfg : SplitterConfig) (faults : Faults) (db : Store)
    (B : BTCBlockData) (T : Block) (hq : faults Step.checkFindPrevious = false)
    (ht : faults Step.checkFindTip = false) (hpos : 0 < cfg.MaxBatchBlock)
    (hlo : minInt64 ≤ T.Height) (hhi : T.Height + cfg.MaxBatchBlock ≤ maxInt64)
    (htip : latestBlock db.btc_block = some T) (hgap : T.Height < B.Block.Height - 1) :
    blocksAt db.btc_block (B.Block.Height - 1) = [] ∧
      (CheckBlock cfg faults db B).calls
        = [Call.SendBatchBlock (T.Height + 1)
            (min B.Block.Height (T.Height + cfg.MaxBatchBlock))] ∧
      (CheckBlock cfg faults db B).ok = false ∧
      (CheckBlock cfg faults db B).height = T.Height + 1 ∧
      ((min B.Block.Height (T.Height + cfg.MaxBatchBlock) - (T.Height + 1) + 1).toNat : Int)
        ≤ cfg.MaxBatchBlock := by
  have hnone : blocksAt db.btc_block (B.Block.Height - 1) = [] := by
    apply List.eq_nil_iff_forall_not_mem.2
    intro b hb
    have hb2 := mem_blocksAt.1 hb
    have := latestBlock_le htip b hb2.1
    omega
  have hsum : wrap64 (T.Height + cfg.MaxBatchBlock) = T.Height + cfg.MaxBatchBlock :=
    wrap64_of_inRange (by unfold minInt64 at *; omega) hhi
  have hone : wrap64 (T.Height + 1) = T.Height + 1 :=
    wrap64_of_inRange (by unfold minInt64 at *; omega) (by unfold maxInt64 at *; omega)
  refine ⟨hnone, ?_⟩
  unfold CheckBlock
  simp only [hq, ht, hnone, htip, List.length_nil, hsum, hone]
  have hmin : (if B.Block.Height > T.Height + cfg.MaxBatchBlock then T.Height + cfg.MaxBatchBlock
      else B.Block.Height) = min B.Block.Height (T.Height + cfg.MaxBatchBlock) := by
    split <;> omega
  rw [hmin]
  simp
  omega

/-- Witness for C3 (amended): tip `h10` at height 10, incoming block 500,
`MaxBatchBlock = 100`. -/
theorem CheckBlock_gap_above_tip_witness :
    noFaults Step.checkFindPrevious = false ∧ noFaults Step.checkFindTip = false ∧
    (0 : Int) < (config 100).MaxBatchBlock ∧
    minInt64 ≤ (header 10 "h10" "h9").Height ∧
    (header 10 "h10" "h9").Height + (config 100).MaxBatchBlock ≤ maxInt64 ∧
    latestBlock (storeOf [header 9 "h9" "h8", header 10 "h10" "h9"]).btc_block
      = some (header 10 "h10" "h9") ∧
    (header 10 "h10" "h9").Height < (message (header 500 "h500" "h499")).Block.Height - 1 ∧
    (CheckBlock (config 100) noFaults (storeOf [header 9 "h9" "h8", header 10 "h10" "h9"])
        (message (header 500 "h500" "h499"))).calls = [Call.SendBatchBlock 11 110] :=
  ⟨rfl, rfl, by decide, by decide, by decide, by decide, by decide,
    (CheckBlock_gap_above_tip (config 100) noFaults
      (storeOf [header 9 "h9" "h8", header 10 "h10" "h9"])
      (message (header 500 "h500" "h499")) (header 10 "h10" "h9") rfl rfl (by decide)
      (by decide) (by decide) (by decide) (by decide)).2.1⟩

/-! ## Facts about the transaction steps -/

theorem revertedHeights_append (xs ys : List Call) :
    revertedHeights (xs ++ ys) = revertedHeights xs ++ revertedHeights ys := by
  induction xs with
  | nil => simp [revertedHeights]
  | cons c xs ih => cases c <;> simp [revertedHeights, ih]

theorem mem_heightsDown {top bottom x : Int} :
    x ∈ heightsDown top bottom ↔ bottom ≤ x ∧ x ≤ top := by
  unfold heightsDown
  simp only [List.mem_map, List.mem_range]
  constructor
  · rintro ⟨k, hk, rfl⟩
    have := Int.lt_toNat.1 hk
    omega
  · intro h
    refine ⟨(top - x).toNat, ?_, ?_⟩
    · apply Int.lt_toNat.2
      rw [Int.toNat_of_nonneg (by omega)]
      omega
    · rw [Int.toNat_of_nonneg (by omega)]
      omega

theorem length_heightsDown (top bottom : Int) :
    (heightsDown top bottom).length = (top - bottom + 1).toNat := by
  unfold heightsDown
  rw [List.length_map, List.length_range]

theorem RevertBlock_blocks {hp : Helpers} {faults : Faults} {i : Int} {tx tx1 : Store}
    (h : RevertBlock hp faults i tx = Except.ok tx1) :
    tx1.btc_block = tx.btc_block.filter (fun b => decide (b.Height ≠ i)) := by
  unfold RevertBlock at h
  split_ifs at h
  cases h
  rfl

theorem UpdateTetherAddress_blocks {hp : Helpers} {faults : Faults} {data : BTCBlockData}
    {tx tx1 : Store} (h : UpdateTetherAddress hp faults data tx = Except.ok tx1) :
    tx1.btc_block = tx.btc_block := by
  unfold UpdateTetherAddress at h
  simp only at h
  split_ifs at h <;> split at h <;> cases h
  rfl

theorem RevertTetherAddress_blocks {hp : Helpers} {faults : Faults} {i : Int} {tx tx1 : Store}
    (h : RevertTetherAddress hp faults i tx = Except.ok tx1) :
    tx1.btc_block = tx.btc_block := by
  unfold RevertTetherAddress at h
  split_ifs at h <;> split at h <;> (try cases h) <;> simp only at h <;> split at h <;> cases h
  rfl

theorem writeOverlay_blocks {cfg : SplitterConfig} {hp : Helpers} {faults : Faults}
    {data : BTCBlockData} {tx tx1 : Store}
    (h : writeOverlay cfg hp faults data tx = Except.ok tx1) :
    tx1.btc_block = tx.btc_block := by
  unfold writeOverlay at h
  split_ifs at h
  · simp only at h
    rw [UpdateTetherAddress_blocks h]
  · cases h
    rfl

theorem writeHeader_blocks {cfg : SplitterConfig} {hp : Helpers} {faults : Faults}
    {data data1 : BTCBlockData} {tx tx1 : Store}
    (h : writeHeader cfg hp faults data tx = Except.ok (data1, tx1)) :
    tx1.btc_block =
      (if cfg.DatabaseType ≠ "postgres" then
        (tx.btc_block ++ [{ data.Block with Miner := hp.GetBlockMiner data tx }]).map
          (fun b : Block => if b.Height = data.Block.Height then
            { b with Version := data.Block.Version } else b)
      else tx.btc_block ++ [{ data.Block with Miner := hp.GetBlockMiner data tx }]) := by
  unfold writeHeader at h
  simp only at h
  split_ifs at h <;> cases h <;> simp [*]

theorem writeOutputs_blocks {hp : Helpers} {faults : Faults}
    {data data1 : BTCBlockData} {tx tx1 : Store}
    (h : writeOutputs hp faults data tx = Except.ok (data1, tx1)) :
    tx1.btc_block = tx.btc_block := by
  unfold writeOutputs at h
  simp only at h
  split_ifs at h
  cases h
  rfl

theorem writeTransactions_blocks {cfg : SplitterConfig} {hp : Helpers} {faults : Faults}
    {data : BTCBlockData} {tx tx1 : Store}
    (h : writeTransactions cfg hp faults data tx = Except.ok tx1) :
    tx1.btc_block = tx.btc_block := by
  unfold writeTransactions at h
  simp only at h
  split_ifs at h <;> cases h <;> rfl

theorem writeInputs_blocks {hp : Helpers} {faults : Faults}
    {data : BTCBlockData} {tx tx1 : Store}
    (h : writeInputs hp faults data tx = Except.ok tx1) :
    tx1.btc_block = tx.btc_block := by
  unfold writeInputs at h
  simp only at h
  split_ifs at h
  cases h
  rfl

theorem writeBlock_blocks {cfg : SplitterConfig} {hp : Helpers} {faults : Faults}
    {data : BTCBlockData} {tx tx1 : Store}
    (h : writeBlock cfg hp faults data tx = Except.ok tx1) :
    tx1.btc_block =
      (if cfg.DatabaseType ≠ "postgres" then
        (tx.btc_block ++ [{ data.Block with Miner := hp.GetBlockMiner data tx }]).map
          (fun b : Block => if b.Height = data.Block.Height then
            { b with Version := data.Block.Version } else b)
      else tx.btc_block ++ [{ data.Block with Miner := hp.GetBlockMiner data tx }]) := by
  unfold writeBlock at h
  split at h
  · cases h
  · rename_i d1 t1 h1
    split at h
    · cases h
    · rename_i d2 t2 h2
      split at h
      · cases h
      · rename_i t3 h3
        split at h
        · cases h
        · rename_i t4 h4
          rw [writeOverlay_blocks h, writeInputs_blocks h4, writeTransactions_blocks h3,
            writeOutputs_blocks h2, writeHeader_blocks h1]

theorem revertLoop_ok {cfg : SplitterConfig} {hp : Helpers} {faults : Faults} :
    ∀ (hs : List Int) (s s1 : TxState), revertLoop cfg hp faults hs s = Except.ok s1 →
      s1.tx.btc_block = s.tx.btc_block.filter (fun b => decide (b.Height ∉ hs)) ∧
      revertedHeights s1.calls = revertedHeights s.calls ++ hs ∧
      s1.stats = { s.stats with revert_block := s.stats.revert_block + hs.length } := by
  intro hs
  induction hs with
  | nil =>
    intro s s1 h
    simp only [revertLoop, Except.ok.injEq] at h
    subst h
    simp
  | cons i rest ih =>
    intro s s1 h
    simp only [revertLoop] at h
    split at h
    · cases h
    · rename_i tx1 h1
      have hb1 := RevertBlock_blocks h1
      split_ifs at h
      · split at h
        · cases h
        · rename_i tx2 h2
          have hb2 := RevertTetherAddress_blocks h2
          obtain ⟨ha, hc, hd⟩ := ih _ _ h
          simp only at ha hc hd
          refine ⟨?_, ?_, ?_⟩
          · rw [ha, hb2, hb1, List.filter_filter]
            apply List.filter_congr
            intro b _
            simp [not_or, Bool.and_comm]
          · rw [hc, revertedHeights_append]
            simp [revertedHeights]
          · rw [hd]
            simp [Nat.add_assoc, Nat.add_comm 1]
      · obtain ⟨ha, hc, hd⟩ := ih _ _ h
        simp only at ha hc hd
        refine ⟨?_, ?_, ?_⟩
        · rw [ha, hb1, List.filter_filter]
          apply List.filter_congr
          intro b _
          simp [not_or, Bool.and_comm]
        · rw [hc, revertedHeights_append]
          simp [revertedHeights]
        · rw [hd]
          simp [Nat.add_assoc, Nat.add_comm 1]

theorem revertLoop_error {cfg : SplitterConfig} {hp : Helpers} {faults : Faults} :
    ∀ (hs : List Int) (s s1 : TxState) (e : Step),
      revertLoop cfg hp faults hs s = Except.error (e, s1) →
      (revertedHeights s1.calls).length ≤ (revertedHeights s.calls).length + hs.length ∧
      s1.stats.database_commit = s.stats.database_commit ∧
      s1.stats.database_rollback = s.stats.database_rollback := by
  intro hs
  induction hs with
  | nil =>
    intro s s1 e h
    simp [revertLoop] at h
  | cons i rest ih =>
    intro s s1 e h
    simp only [revertLoop] at h
    split at h
    · cases h
      simp [revertedHeights_append, revertedHeights]
    · split_ifs at h
      · split at h
        · cases h
          simp [revertedHeights_append, revertedHeights]
        · obtain ⟨ha, hc, hd⟩ := ih _ _ _ h
          simp only [revertedHeights_append, revertedHeights, List.length_append,
            List.length_cons, List.length_nil] at ha hc hd
          simp only [List.length_cons]
          exact ⟨by omega, hc, hd⟩
      · obtain ⟨ha, hc, hd⟩ := ih _ _ _ h
        simp only [revertedHeights_append, revertedHeights, List.length_append,
          List.length_cons, List.length_nil] at ha hc hd
        simp only [List.length_cons]
        exact ⟨by omega, hc, hd⟩

theorem filter_not_mem_heightsDown {blocks : List Block} {top : Block} (h : Int)
    (htip : latestBlock blocks = some top) :
    blocks.filter (fun b => decide (b.Height ∉ heightsDown top.Height h)) =
      blocks.filter (fun b => decide (b.Height < h)) := by
  apply List.filter_congr
  intro b hb
  have hle := latestBlock_le htip b hb
  simp only [mem_heightsDown, decide_eq_decide]
  omega

theorem writeAndCommit_err_none {cfg : SplitterConfig} {hp : Helpers} {faults : Faults}
    {db : Store} {s : TxState} {data : BTCBlockData}
    (h : (writeAndCommit cfg hp faults db s data).err = none) :
    ∃ tx1, writeBlock cfg hp faults data s.tx = Except.ok tx1 ∧
      writeAndCommit cfg hp faults db s data =
        ⟨none, tx1, { s.stats with database_commit := s.stats.database_commit + 1 },
          s.calls ++ [Call.Commit]⟩ := by
  unfold writeAndCommit at h ⊢
  cases h1 : writeBlock cfg hp faults data s.tx with
  | error e => simp [h1, rollbackWith] at h
  | ok tx1 =>
    by_cases hc : faults Step.commit = true
    · simp [h1, hc, rollbackWith] at h
    · exact ⟨tx1, rfl, by simp [hc]⟩

theorem writeAndCommit_err_some {cfg : SplitterConfig} {hp : Helpers} {faults : Faults}
    {db : Store} {s : TxState} {data : BTCBlockData} {e : Step}
    (h : (writeAndCommit cfg hp faults db s data).err = some e) :
    writeAndCommit cfg hp faults db s data = rollbackWith db s.stats s.calls e := by
  unfold writeAndCommit at h ⊢
  cases h1 : writeBlock cfg hp faults data s.tx with
  | error e1 =>
    simp only [h1, rollbackWith, Option.some.injEq] at h
    simp [h]
  | ok tx1 =>
    by_cases hc : faults Step.commit = true
    · simp only [h1, hc, if_true, rollbackWith, Option.some.injEq] at h
      subst h
      simp [hc]
    · simp [h1, hc] at h

theorem writeAndCommit_cases (cfg : SplitterConfig) (hp : Helpers) (faults : Faults)
    (db : Store) (s : TxState) (B : BTCBlockData) :
    (∃ e, writeAndCommit cfg hp faults db s B = rollbackWith db s.stats s.calls e) ∨
    ((writeAndCommit cfg hp faults db s B).err = none ∧
      (writeAndCommit cfg hp faults db s B).stats =
        { s.stats with database_commit := s.stats.database_commit + 1 } ∧
      (writeAndCommit cfg hp faults db s B).calls = s.calls ++ [Call.Commit] ∧
      committedTable B s.tx.btc_block (writeAndCommit cfg hp faults db s B).db.btc_block) := by
  cases he : (writeAndCommit cfg hp faults db s B).err with
  | some e => exact Or.inl ⟨e, writeAndCommit_err_some he⟩
  | none =>
    right
    obtain ⟨tx1, hw, hr⟩ := writeAndCommit_err_none he
    rw [hr]
    refine ⟨rfl, rfl, rfl, ?_⟩
    have hb := writeBlock_blocks hw
    simp only
    by_cases hc : cfg.DatabaseType ≠ "postgres"
    · rw [if_pos hc] at hb
      refine ⟨{ B.Block with Miner := hp.GetBlockMiner B s.tx }, _, hb, ?_, ?_, rfl⟩
      · simp
      · intro b
        by_cases hh : b.Height = B.Block.Height <;> simp [hh]
    · rw [if_neg hc] at hb
      refine ⟨{ B.Block with Miner := hp.GetBlockMiner B s.tx }, id, ?_, rfl, ?_, rfl⟩
      · rw [hb]
        simp
      · intro b
        simp

theorem find_eq_none_of_nil {blocks : List Block} {h : Int} (hnil : blocks = []) :
    blocks.find? (fun b => decide (b.Height = h)) = none := by
  subst hnil
  rfl

theorem SaveBlock_cases (cfg : SplitterConfig) (hp : Helpers) (faults : Faults)
    (db : Store) (stats : Stats) (B : BTCBlockData) :
    ((SaveBlock cfg hp faults db stats B).db = db ∧
      (SaveBlock cfg hp faults db stats B).stats.database_commit = stats.database_commit ∧
      ((SaveBlock cfg hp faults db stats B).err = none →
        (SaveBlock cfg hp faults db stats B).stats = stats ∧
        (SaveBlock cfg hp faults db stats B).calls = [Call.Rollback] ∧
        silentlyDropped db B)) ∨
    ((SaveBlock cfg hp faults db stats B).err = none ∧
      (SaveBlock cfg hp faults db stats B).stats.database_commit = stats.database_commit + 1 ∧
      ∃ pre, committedTable B pre (SaveBlock cfg hp faults db stats B).db.btc_block ∧
        (pre = db.btc_block ∨
          pre = db.btc_block.filter (fun b => decide (b.Height < B.Block.Height))) ∧
        (B.Block.Height ≠ 0 → ∀ b ∈ pre, b.Height ≠ B.Block.Height) ∧
        (B.Block.Height = 0 → db.btc_block = [])) := by
  unfold SaveBlock
  by_cases hb : faults Step.begin = true
  · simp [hb, rollbackWith]
  by_cases hg : faults Step.getBlock = true
  · simp [hb, hg, rollbackWith]
  simp only [hb, hg, Bool.false_eq_true, if_false]
  by_cases h1 : B.Block.Height = 0 ∧ faults Step.findTipGenesis = true
  · simp [h1]
  rw [if_neg h1]
  by_cases h2 : B.Block.Height = 0 ∧ latestBlock db.btc_block ≠ none
  · rw [if_pos h2]
    left
    refine ⟨rfl, rfl, fun _ => ⟨rfl, rfl, Or.inl ⟨h2.1, ?_⟩⟩⟩
    intro hnil
    exact h2.2 ((latestBlock_eq_none _).2 hnil)
  rw [if_neg h2]
  have hgen : B.Block.Height = 0 → db.btc_block = [] := by
    intro h0
    by_contra hne
    exact h2 ⟨h0, fun hn => hne ((latestBlock_eq_none _).1 hn)⟩
  cases hfind : db.btc_block.find? (fun b => decide (b.Height = B.Block.Height)) with
  | none =>
    simp only
    rcases writeAndCommit_cases cfg hp faults db ⟨db, stats, []⟩ B with ⟨e, he⟩ | ⟨ha, hs, _, ht⟩
    · rw [he]
      simp [rollbackWith]
    · right
      refine ⟨ha, by rw [hs], db.btc_block, ht, Or.inl rfl, ?_, hgen⟩
      intro _ b hb2 hh
      have := List.find?_eq_none.1 hfind b hb2
      simp [hh] at this
  | some stored =>
    simp only
    by_cases h0 : B.Block.Height = 0
    · have := hgen h0
      rw [find_eq_none_of_nil this] at hfind
      cases hfind
    · rw [if_pos h0]
      by_cases hh : stored.Hash = B.Block.Hash
      · rw [if_pos hh]
        left
        exact ⟨rfl, rfl, fun _ => ⟨rfl, rfl, Or.inr ⟨h0, stored, hfind, Or.inl hh⟩⟩⟩
      rw [if_neg hh]
      by_cases ht : faults Step.findTipReorg = true
      · simp [ht, rollbackWith]
      rw [if_neg ht]
      cases htip : latestBlock db.btc_block with
      | none => simp [rollbackWith]
      | some top =>
        simp only
        by_cases hold : top.Height - B.Block.Height > 6
        · rw [if_pos hold]
          left
          exact ⟨rfl, rfl, fun _ => ⟨rfl, rfl, Or.inr ⟨h0, stored, hfind, Or.inr ⟨top, htip, hold⟩⟩⟩⟩
        rw [if_neg hold]
        cases hloop : revertLoop cfg hp faults (heightsDown top.Height B.Block.Height)
            ⟨db, stats, []⟩ with
        | error es =>
          obtain ⟨e, s⟩ := es
          obtain ⟨_, hc, _⟩ := revertLoop_error _ _ _ _ hloop
          simp only at hc
          simp [rollbackWith, hc]
        | ok s =>
          obtain ⟨hbl, _, hst⟩ := revertLoop_ok _ _ _ hloop
          simp only at hbl hst
          rw [filter_not_mem_heightsDown _ htip] at hbl
          rcases writeAndCommit_cases cfg hp faults db s B with ⟨e, he⟩ | ⟨ha, hs, _, htab⟩
          · simp only
            rw [he]
            simp [rollbackWith, hst]
          · right
            simp only
            refine ⟨ha, by rw [hs, hst], s.tx.btc_block, htab, Or.inr hbl, ?_, hgen⟩
            intro _ b hb2 hh2
            rw [hbl] at hb2
            have := (List.mem_filter.1 hb2).2
            simp at this
            omega

/-! ## Persistence transaction: reorganisation -/

theorem writeAndCommit_reverted (cfg : SplitterConfig) (hp : Helpers) (faults : Faults)
    (db : Store) (s : TxState) (B : BTCBlockData) :
    revertedHeights (writeAndCommit cfg hp faults db s B).calls = revertedHeights s.calls := by
  rcases writeAndCommit_cases cfg hp faults db s B with ⟨e, he⟩ | ⟨_, _, hc, _⟩
  · rw [he]
    simp [rollbackWith, revertedHeights_append, revertedHeights]
  · rw [hc]
    simp [revertedHeights_append, revertedHeights]

/-- C6 as stated fails: with the chain `h0 .. h7` stored and a competing block at height
1 (tip - height = 6), `SaveBlock` commits after seven `RevertBlock` calls. -/
theorem SaveBlock_reorg_bound_counterexample :
    (SaveBlock (config 100) (plainHelpers (fun _ => none)) noFaults (storeOf chainTo7)
        zeroStats (message (header 1 "h1b" "h0"))).err = none ∧
    (SaveBlock (config 100) (plainHelpers (fun _ => none)) noFaults (storeOf chainTo7)
        zeroStats (message (header 1 "h1b" "h0"))).stats.database_commit = 1 ∧
    revertedHeights (SaveBlock (config 100) (plainHelpers (fun _ => none)) noFaults
        (storeOf chainTo7) zeroStats (message (header 1 "h1b" "h0"))).calls
      = [7, 6, 5, 4, 3, 2, 1] ∧
    ¬ (revertedHeights (SaveBlock (config 100) (plainHelpers (fun _ => none)) noFaults
        (storeOf chainTo7) zeroStats (message (header 1 "h1b" "h0"))).calls).length ≤ 6 := by
  decide

/-- C6, amended. No call of `SaveBlock`, committing or not, makes more than seven
`RevertBlock` calls: the reorganisation runs only when `tip - B.Height ≤ 6` and then
reverts the heights `tip` down to `B.Height` inclusive. -/
theorem SaveBlock_reorg_bound (cfg : SplitterConfig) (hp : Helpers) (faults : Faults)
    (db : Store) (stats : Stats) (B : BTCBlockData) :
    (revertedHeights (SaveBlock cfg hp faults db stats B).calls).length ≤ 7 := by
  unfold SaveBlock
  by_cases hb : faults Step.begin = true
  · simp [hb, rollbackWith, revertedHeights]
  by_cases hg : faults Step.getBlock = true
  · simp [hb, hg, rollbackWith, revertedHeights]
  simp only [hb, hg, Bool.false_eq_true, if_false]
  by_cases h1 : B.Block.Height = 0 ∧ faults Step.findTipGenesis = true
  · simp [h1, revertedHeights]
  rw [if_neg h1]
  by_cases h2 : B.Block.Height = 0 ∧ latestBlock db.btc_block ≠ none
  · simp [h2, revertedHeights]
  rw [if_neg h2]
  cases hfind : db.btc_block.find? (fun b => decide (b.Height = B.Block.Height)) with
  | none =>
    simp only
    rw [writeAndCommit_reverted]
    simp [revertedHeights]
  | some stored =>
    simp only
    by_cases h0 : B.Block.Height = 0
    · rw [if_neg (by simpa using h0)]
      rw [writeAndCommit_reverted]
      simp [revertedHeights]
    · rw [if_pos h0]
      by_cases hh : stored.Hash = B.Block.Hash
      · simp [hh, revertedHeights]
      rw [if_neg hh]
      by_cases ht : faults Step.findTipReorg = true
      · simp [ht, rollbackWith, revertedHeights]
      rw [if_neg ht]
      cases htip : latestBlock db.btc_block with
      | none => simp [rollbackWith, revertedHeights]
      | some top =>
        simp only
        by_cases hold : top.Height - B.Block.Height > 6
        · simp [hold, revertedHeights]
        rw [if_neg hold]
        have hlen : (heightsDown top.Height B.Block.Height).length ≤ 7 := by
          rw [length_heightsDown]
          omega
        cases hloop : revertLoop cfg hp faults (heightsDown top.Height B.Block.Height)
            ⟨db, stats, []⟩ with
        | error es =>
          obtain ⟨e, s⟩ := es
          obtain ⟨hc, _, _⟩ := revertLoop_error _ _ _ _ hloop
          simp only [revertedHeights, List.length_nil] at hc
          simp only [rollbackWith, revertedHeights_append, revertedHeights, List.append_nil]
          omega
        | ok s =>
          obtain ⟨_, hc, _⟩ := revertLoop_ok _ _ _ hloop
          simp only [revertedHeights, List.nil_append] at hc
          simp only
          rw [writeAndCommit_reverted, hc]
          exact hlen

/-! ## Facts about the committed block table -/

theorem committedTable_height {B : BTCBlockData} {b1 : Block}
    (h : { b1 with Miner := B.Block.Miner } = B.Block) :
    b1.Height = B.Block.Height ∧ b1.Hash = B.Block.Hash ∧
      b1.PreviousHash = B.Block.PreviousHash := by
  rw [← h]
  exact ⟨rfl, rfl, rfl⟩

theorem blocksAt_map {f : Block → Block} (hf : ∀ b, (f b).Height = b.Height)
    (l : List Block) (h : Int) : blocksAt (l.map f) h = (blocksAt l h).map f := by
  unfold blocksAt
  rw [List.filter_map]
  congr 1
  apply List.filter_congr
  intro b _
  simp [hf b]

theorem blocksAt_eq_nil {l : List Block} {h : Int} (hl : ∀ b ∈ l, b.Height ≠ h) :
    blocksAt l h = [] := by
  apply List.eq_nil_iff_forall_not_mem.2
  intro b hb
  exact hl b (mem_blocksAt.1 hb).1 (mem_blocksAt.1 hb).2

theorem committedTable_blocksAt {B : BTCBlockData} {pre blocks : List Block}
    (h : committedTable B pre blocks) (hpre : ∀ b ∈ pre, b.Height ≠ B.Block.Height) :
    ∃ b, blocksAt blocks B.Block.Height = [b] ∧ { b with Miner := B.Block.Miner } = B.Block := by
  obtain ⟨b1, f, hb, hf1, hf, hB⟩ := h
  refine ⟨b1, ?_, hB⟩
  rw [hb, blocksAt_map (fun b => (hf b).1)]
  have h1 : blocksAt (pre ++ [b1]) B.Block.Height = [b1] := by
    unfold blocksAt
    rw [List.filter_append]
    have := blocksAt_eq_nil hpre
    unfold blocksAt at this
    rw [this]
    simp [(committedTable_height hB).1]
  rw [h1]
  simp [hf1]

theorem find_eq_head_blocksAt (l : List Block) (h : Int) :
    l.find? (fun b => decide (b.Height = h)) = (blocksAt l h).head? := by
  unfold blocksAt
  induction l with
  | nil => rfl
  | cons a l ih =>
    by_cases ha : a.Height = h
    · rw [List.find?_cons_of_pos _ (by simpa using ha),
        List.filter_cons_of_pos (by simpa using ha)]
      rfl
    · rw [List.find?_cons_of_neg _ (by simpa using ha),
        List.filter_cons_of_neg (by simpa using ha)]
      exact ih

theorem committedTable_find {B : BTCBlockData} {pre blocks : List Block}
    (h : committedTable B pre blocks) (hpre : ∀ b ∈ pre, b.Height ≠ B.Block.Height) :
    ∃ b, blocks.find? (fun b => decide (b.Height = B.Block.Height)) = some b ∧
      b.Hash = B.Block.Hash := by
  obtain ⟨b, hb, hB⟩ := committedTable_blocksAt h hpre
  refine ⟨b, ?_, ?_⟩
  · rw [find_eq_head_blocksAt, hb]
    rfl
  · rw [← hB]

theorem committedTable_ne_nil {B : BTCBlockData} {pre blocks : List Block}
    (h : committedTable B pre blocks) : blocks ≠ [] := by
  obtain ⟨b1, f, hb, _, _, _⟩ := h
  rw [hb]
  simp

theorem latestBlock_of_max {bs : List Block} {x : Block} (hx : x ∈ bs)
    (hmax : ∀ b ∈ bs, b.Height ≤ x.Height) :
    ∃ t, latestBlock bs = some t ∧ t.Height = x.Height := by
  cases ht : latestBlock bs with
  | none =>
    have := (latestBlock_eq_none bs).1 ht
    subst this
    simp at hx
  | some t =>
    refine ⟨t, rfl, ?_⟩
    have h1 := latestBlock_le ht x hx
    have h2 := hmax t (latestBlock_mem ht)
    omega

theorem committedTable_tip {B : BTCBlockData} {pre blocks : List Block}
    (h : committedTable B pre blocks) (hpre : ∀ b ∈ pre, b.Height < B.Block.Height) :
    ∃ t, latestBlock blocks = some t ∧ t.Height = B.Block.Height := by
  obtain ⟨b1, f, hb, hf1, hf, hB⟩ := h
  have hh := (committedTable_height hB).1
  have hmem : b1 ∈ blocks := by
    rw [hb]
    exact List.mem_map.2 ⟨b1, by simp, hf1⟩
  obtain ⟨t, ht, hth⟩ := @latestBlock_of_max blocks b1 hmem (by
    intro b hbm
    rw [hb] at hbm
    obtain ⟨a, ha, rfl⟩ := List.mem_map.1 hbm
    rw [(hf a).1]
    rcases List.mem_append.1 ha with hp | hs
    · have := hpre a hp
      omega
    · simp only [List.mem_singleton] at hs
      subst hs
      exact le_refl _)
  exact ⟨t, ht, by rw [hth, hh]⟩

theorem committedTable_parentContinuity {B : BTCBlockData} {db pre blocks : List Block}
    (h : committedTable B pre blocks) (hP : parentContinuity db)
    (hsub : pre = db ∨ pre = db.filter (fun b => decide (b.Height < B.Block.Height)))
    (hparent : B.Block.Height ≤ 0 ∨
      ∃ p ∈ db, p.Height = B.Block.Height - 1 ∧ p.Hash = B.Block.PreviousHash) :
    parentContinuity blocks := by
  obtain ⟨b1, f, hb, hf1, hf, hB⟩ := h
  obtain ⟨hh, _, hprev⟩ := committedTable_height hB
  have hkeep : ∀ p ∈ db, p.Height < B.Block.Height → p ∈ pre := by
    intro p hp hlt
    rcases hsub with rfl | rfl
    · exact hp
    · exact List.mem_filter.2 ⟨hp, by simpa using hlt⟩
  have hpre_db : ∀ b ∈ pre, b ∈ db ∧ (pre = db ∨ b.Height < B.Block.Height) := by
    intro b hbp
    rcases hsub with rfl | rfl
    · exact ⟨hbp, Or.inl rfl⟩
    · have := List.mem_filter.1 hbp
      exact ⟨this.1, Or.inr (by simpa using this.2)⟩
  have hin : ∀ p ∈ pre, f p ∈ blocks := by
    intro p hp
    rw [hb]
    exact List.mem_map.2 ⟨p, List.mem_append_left _ hp, rfl⟩
  intro b hbm hpos
  rw [hb] at hbm
  obtain ⟨a, ha, rfl⟩ := List.mem_map.1 hbm
  rw [(hf a).1] at hpos
  rw [(hf a).1, (hf a).2.2]
  rcases List.mem_append.1 ha with hp | hs
  · obtain ⟨hadb, hcase⟩ := hpre_db a hp
    obtain ⟨p, hpdb, hph, hphash⟩ := hP a hadb hpos
    have hppre : p ∈ pre := by
      rcases hcase with heq | hlt
      · rw [heq]
        exact hpdb
      · exact hkeep p hpdb (by omega)
    exact ⟨f p, hin p hppre, by rw [(hf p).1, hph], by rw [(hf p).2.1, hphash]⟩
  · simp only [List.mem_singleton] at hs
    subst hs
    rcases hparent with hle | ⟨p, hpdb, hph, hphash⟩
    · omega
    · have hppre : p ∈ pre := hkeep p hpdb (by omega)
      exact ⟨f p, hin p hppre, by rw [(hf p).1, hph, hh], by rw [(hf p).2.1, hphash, hprev]⟩

/-! ## Persistence transaction: the reorganisation branch -/

theorem SaveBlock_reorg_eq (cfg : SplitterConfig) (hp : Helpers) (faults : Faults)
    (db : Store) (stats : Stats) (B : BTCBlockData) (stored top : Block)
    (hb : faults Step.begin = false) (hg : faults Step.getBlock = false)
    (ht : faults Step.findTipReorg = false) (h0 : B.Block.Height ≠ 0)
    (hstored : db.btc_block.find? (fun b => decide (b.Height = B.Block.Height)) = some stored)
    (hhash : stored.Hash ≠ B.Block.Hash) (htip : latestBlock db.btc_block = some top)
    (hbound : top.Height - B.Block.Height ≤ 6) :
    SaveBlock cfg hp faults db stats B =
      match revertLoop cfg hp faults (heightsDown top.Height B.Block.Height)
          ⟨db, stats, []⟩ with
      | Except.error (e, s) => rollbackWith db s.stats s.calls e
      | Except.ok s => writeAndCommit cfg hp faults db s B := by
  have hnot : ¬ top.Height - B.Block.Height > 6 := by omega
  unfold SaveBlock
  simp [hb, hg, ht, h0, hstored, hhash, htip, hnot]

/-- C7. Let `B` have height `h > 0`, let the row the store returns for `h` carry another
hash, and let the tip `T` satisfy `T - h ≤ 6`.  Whenever `SaveBlock` returns success it
has called `RevertBlock` exactly for `T, T-1, ..., h` in this order (`T - h + 1` calls),
has added one to `revert_block` per reverted height, and leaves the row of `B` as the
only block at height `h` and `h` as the tip height. -/
theorem SaveBlock_reorg_within_bound (cfg : SplitterConfig) (hp : Helpers) (faults : Faults)
    (db : Store) (stats : Stats) (B : BTCBlockData) (stored top : Block)
    (hpos : 0 < B.Block.Height)
    (hstored : db.btc_block.find? (fun b => decide (b.Height = B.Block.Height)) = some stored)
    (hhash : stored.Hash ≠ B.Block.Hash) (htip : latestBlock db.btc_block = some top)
    (hbound : top.Height - B.Block.Height ≤ 6)
    (hok : (SaveBlock cfg hp faults db stats B).err = none) :
    revertedHeights (SaveBlock cfg hp faults db stats B).calls
        = heightsDown top.Height B.Block.Height ∧
      ((heightsDown top.Height B.Block.Height).length : Int)
        = top.Height - B.Block.Height + 1 ∧
      (SaveBlock cfg hp faults db stats B).stats.revert_block
        = stats.revert_block + (heightsDown top.Height B.Block.Height).length ∧
      (∃ b, blocksAt (SaveBlock cfg hp faults db stats B).db.btc_block B.Block.Height = [b] ∧
        { b with Miner := B.Block.Miner } = B.Block) ∧
      (∃ t, latestBlock (SaveBlock cfg hp faults db stats B).db.btc_block = some t ∧
        t.Height = B.Block.Height) := by
  have h0 : B.Block.Height ≠ 0 := by omega
  have hb : faults Step.begin = false := by
    by_contra hc
    have hc1 : faults Step.begin = true := by simpa using hc
    unfold SaveBlock at hok
    simp [hc1, rollbackWith] at hok
  have hg : faults Step.getBlock = false := by
    by_contra hc
    have hc1 : faults Step.getBlock = true := by simpa using hc
    unfold SaveBlock at hok
    simp [hb, hc1, rollbackWith] at hok
  have ht : faults Step.findTipReorg = false := by
    by_contra hc
    have hc1 : faults Step.findTipReorg = true := by simpa using hc
    unfold SaveBlock at hok
    simp [hb, hg, hc1, h0, hstored, hhash, rollbackWith] at hok
  have hle : B.Block.Height ≤ top.Height := by
    have hm := List.mem_of_find?_eq_some hstored
    have hh := List.find?_some hstored
    have := latestBlock_le htip stored hm
    simp only [decide_eq_true_eq] at hh
    omega
  have hlen : ((heightsDown top.Height B.Block.Height).length : Int)
      = top.Height - B.Block.Height + 1 := by
    rw [length_heightsDown, Int.toNat_of_nonneg (by omega)]
  rw [SaveBlock_reorg_eq cfg hp faults db stats B stored top hb hg ht h0 hstored hhash htip
    hbound] at hok ⊢
  cases hloop : revertLoop cfg hp faults (heightsDown top.Height B.Block.Height)
      ⟨db, stats, []⟩ with
  | error es =>
    rw [hloop] at hok
    simp [rollbackWith] at hok
  | ok s =>
    rw [hloop] at hok
    simp only at hok ⊢
    obtain ⟨hbl, hc, hst⟩ := revertLoop_ok _ _ _ hloop
    simp only [revertedHeights, List.nil_append] at hbl hc hst
    rw [filter_not_mem_heightsDown _ htip] at hbl
    rcases writeAndCommit_cases cfg hp faults db s B with ⟨e, he⟩ | ⟨_, hs, hcalls, htab⟩
    · rw [he] at hok
      simp [rollbackWith] at hok
    · have hpre : ∀ b ∈ s.tx.btc_block, b.Height < B.Block.Height := by
        intro b hbm
        rw [hbl] at hbm
        simpa using (List.mem_filter.1 hbm).2
      refine ⟨?_, hlen, ?_, ?_, ?_⟩
      · rw [writeAndCommit_reverted, hc]
      · rw [hs, hst]
      · exact committedTable_blocksAt htab (fun b hbm => by have := hpre b hbm; omega)
      · exact committedTable_tip htab hpre

/-- Witness for C7: the store holds `h100, h101, h102` and the competing block `h101b`
at height 101 arrives; `RevertBlock(102)`, `RevertBlock(101)`, then the commit. -/
theorem SaveBlock_reorg_within_bound_witness :
    revertedHeights (SaveBlock (config 100) (plainHelpers (fun _ => none)) noFaults
        (storeOf chain100To102) zeroStats (message (header 101 "h101b" "h100"))).calls
      = heightsDown 102 101 ∧
    heightsDown 102 101 = [102, 101] ∧
    (SaveBlock (config 100) (plainHelpers (fun _ => none)) noFaults
        (storeOf chain100To102) zeroStats (message (header 101 "h101b" "h100"))).stats.revert_block
      = 2 :=
  ⟨(SaveBlock_reorg_within_bound (config 100) (plainHelpers (fun _ => none)) noFaults
      (storeOf chain100To102) zeroStats (message (header 101 "h101b" "h100"))
      (header 101 "h101" "h100") (header 102 "h102" "h101")
      (by decide) (by decide) (by decide) (by decide) (by decide) (by decide)).1,
    by decide, by decide⟩

/-! ## Persistence transaction: the silent paths -/

/-- C8. Let `B` have height `h > 0`, let the row the store returns for `h` carry another
hash, and let the tip `T` satisfy `T - h > 6`.  With `Begin` and the two lookups
succeeding, `SaveBlock` returns success after a bare `Rollback`: no `RevertBlock` call,
the store unchanged, no counter changed (in particular neither `database_commit` nor
`revert_block`). -/
theorem SaveBlock_fork_too_old (cfg : SplitterConfig) (hp : Helpers) (faults : Faults)
    (db : Store) (stats : Stats) (B : BTCBlockData) (stored top : Block)
    (hb : faults Step.begin = false) (hg : faults Step.getBlock = false)
    (ht : faults Step.findTipReorg = false) (hpos : 0 < B.Block.Height)
    (hstored : db.btc_block.find? (fun b => decide (b.Height = B.Block.Height)) = some stored)
    (hhash : stored.Hash ≠ B.Block.Hash) (htip : latestBlock db.btc_block = some top)
    (hold : top.Height - B.Block.Height > 6) :
    (SaveBlock cfg hp faults db stats B).err = none ∧
      (SaveBlock cfg hp faults db stats B).calls = [Call.Rollback] ∧
      revertedHeights (SaveBlock cfg hp faults db stats B).calls = [] ∧
      (SaveBlock cfg hp faults db stats B).db = db ∧
      (SaveBlock cfg hp faults db stats B).stats = stats := by
  have h0 : B.Block.Height ≠ 0 := by omega
  unfold SaveBlock
  simp [hb, hg, ht, h0, hstored, hhash, htip, hold, revertedHeights]

/-- Witness for C8: the chain `h0 .. h8` is stored (tip 8) and a competing block
arrives at height 1, seven below the tip. -/
theorem SaveBlock_fork_too_old_witness :
    (SaveBlock (config 100) (plainHelpers (fun _ => none)) noFaults
        (storeOf (header 8 "h8" "h7" :: chainTo7)) zeroStats
        (message (header 1 "h1b" "h0"))).db = storeOf (header 8 "h8" "h7" :: chainTo7) ∧
    (SaveBlock (config 100) (plainHelpers (fun _ => none)) noFaults
        (storeOf (header 8 "h8" "h7" :: chainTo7)) zeroStats
        (message (header 1 "h1b" "h0"))).stats = zeroStats :=
  (SaveBlock_fork_too_old (config 100) (plainHelpers (fun _ => none)) noFaults
      (storeOf (header 8 "h8" "h7" :: chainTo7)) zeroStats (message (header 1 "h1b" "h0"))
      (header 1 "h1" "h0") (header 8 "h8" "h7")
      rfl rfl rfl (by decide) (by decide) (by decide) (by decide) (by decide)).2.2.2

theorem SaveBlock_duplicate (cfg : SplitterConfig) (hp : Helpers) (faults : Faults)
    (db : Store) (stats : Stats) (B : BTCBlockData) (stored : Block)
    (hb : faults Step.begin = false) (hg : faults Step.getBlock = false)
    (h0 : B.Block.Height ≠ 0)
    (hstored : db.btc_block.find? (fun b => decide (b.Height = B.Block.Height)) = some stored)
    (hhash : stored.Hash = B.Block.Hash) :
    SaveBlock cfg hp faults db stats B = ⟨none, db, stats, [Call.Rollback]⟩ := by
  unfold SaveBlock
  simp [hb, hg, h0, hstored, hhash]

theorem SaveBlock_genesis_present (cfg : SplitterConfig) (hp : Helpers) (faults : Faults)
    (db : Store) (stats : Stats) (B : BTCBlockData)
    (hb : faults Step.begin = false) (hg : faults Step.getBlock = false)
    (ht : faults Step.findTipGenesis = false) (h0 : B.Block.Height = 0)
    (hne : db.btc_block ≠ []) :
    SaveBlock cfg hp faults db stats B = ⟨none, db, stats, [Call.Rollback]⟩ := by
  have : latestBlock db.btc_block ≠ none := fun h => hne ((latestBlock_eq_none _).1 h)
  unfold SaveBlock
  simp [hb, hg, ht, h0, this]

/-! ## Persistence transaction: failures -/

/-- Every failure of `SaveBlock` other than the tip lookup of the height-0 branch ends
in the error block: `Rollback` is the last call, `database_rollback` grows by one,
`database_commit` and the committed store stay as they were. -/
theorem SaveBlock_failure (cfg : SplitterConfig) (hp : Helpers) (faults : Faults)
    (db : Store) (stats : Stats) (B : BTCBlockData) (e : Step)
    (herr : (SaveBlock cfg hp faults db stats B).err = some e) :
    (SaveBlock cfg hp faults db stats B).db = db ∧
      (SaveBlock cfg hp faults db stats B).stats.database_commit = stats.database_commit ∧
      ((e = Step.findTipGenesis ∧ B.Block.Height = 0 ∧
          SaveBlock cfg hp faults db stats B = ⟨some e, db, stats, []⟩) ∨
        ((SaveBlock cfg hp faults db stats B).stats.database_rollback
            = stats.database_rollback + 1 ∧
          ∃ pre, (SaveBlock cfg hp faults db stats B).calls = pre ++ [Call.Rollback])) := by
  unfold SaveBlock at herr ⊢
  by_cases hb : faults Step.begin = true
  · simp [hb, rollbackWith]
  by_cases hg : faults Step.getBlock = true
  · simp [hb, hg, rollbackWith]
  simp only [hb, hg, Bool.false_eq_true, if_false] at herr ⊢
  by_cases h1 : B.Block.Height = 0 ∧ faults Step.findTipGenesis = true
  · simp only [h1, and_self, if_true, Option.some.injEq] at herr
    subst herr
    simp [h1.1, h1.2]
  rw [if_neg h1] at herr ⊢
  by_cases h2 : B.Block.Height = 0 ∧ latestBlock db.btc_block ≠ none
  · simp [h2] at herr
  rw [if_neg h2] at herr ⊢
  have hwc : ∀ s : TxState, s.stats.database_commit = stats.database_commit →
      s.stats.database_rollback = stats.database_rollback →
      (writeAndCommit cfg hp faults db s B).err = some e →
      (writeAndCommit cfg hp faults db s B).db = db ∧
      (writeAndCommit cfg hp faults db s B).stats.database_commit = stats.database_commit ∧
      ((e = Step.findTipGenesis ∧ B.Block.Height = 0 ∧
          writeAndCommit cfg hp faults db s B = ⟨some e, db, stats, []⟩) ∨
        ((writeAndCommit cfg hp faults db s B).stats.database_rollback
            = stats.database_rollback + 1 ∧
          ∃ pre, (writeAndCommit cfg hp faults db s B).calls = pre ++ [Call.Rollback])) := by
    intro s hc hr he
    rw [writeAndCommit_err_some he]
    simp [rollbackWith, hc, hr]
  cases hfind : db.btc_block.find? (fun b => decide (b.Height = B.Block.Height)) with
  | none =>
    rw [hfind] at herr
    exact hwc ⟨db, stats, []⟩ rfl rfl herr
  | some stored =>
    rw [hfind] at herr
    simp only at herr ⊢
    by_cases h0 : B.Block.Height = 0
    · rw [if_neg (by simpa using h0)] at herr ⊢
      exact hwc ⟨db, stats, []⟩ rfl rfl herr
    · rw [if_pos h0] at herr ⊢
      by_cases hh : stored.Hash = B.Block.Hash
      · simp [hh] at herr
      rw [if_neg hh] at herr ⊢
      by_cases ht : faults Step.findTipReorg = true
      · simp [ht, rollbackWith]
      rw [if_neg ht] at herr ⊢
      cases htip : latestBlock db.btc_block with
      | none => simp [rollbackWith]
      | some top =>
        rw [htip] at herr
        simp only at herr ⊢
        by_cases hold : top.Height - B.Block.Height > 6
        · simp [hold] at herr
        rw [if_neg hold] at herr ⊢
        cases hloop : revertLoop cfg hp faults (heightsDown top.Height B.Block.Height)
            ⟨db, stats, []⟩ with
        | error es =>
          obtain ⟨e1, s⟩ := es
          obtain ⟨_, hc, hr⟩ := revertLoop_error _ _ _ _ hloop
          simp only at hc hr
          simp [rollbackWith, hc, hr]
        | ok s =>
          rw [hloop] at herr
          obtain ⟨_, _, hst⟩ := revertLoop_ok _ _ _ hloop
          simp only at herr ⊢
          exact hwc s (by rw [hst]) (by rw [hst]) herr

/-- C9 fails on the code: for a block of height 0 whose tip lookup fails, `SaveBlock`
returns the error without any `Rollback` call and leaves `database_rollback` as it
was (lines 323-327), while every other failing step runs the error block. -/
theorem SaveBlock_genesis_tip_failure :
    (SaveBlock (config 100) (plainHelpers (fun _ => none)) (onlyFault Step.findTipGenesis)
        emptyStore zeroStats (message (header 0 "h0" ""))).err = some Step.findTipGenesis ∧
    Call.Rollback ∉ (SaveBlock (config 100) (plainHelpers (fun _ => none))
        (onlyFault Step.findTipGenesis) emptyStore zeroStats
        (message (header 0 "h0" ""))).calls ∧
    (SaveBlock (config 100) (plainHelpers (fun _ => none)) (onlyFault Step.findTipGenesis)
        emptyStore zeroStats (message (header 0 "h0" ""))).stats.database_rollback
      = zeroStats.database_rollback := by
  decide

/-! ## Persistence transaction: idempotence -/

theorem SaveBlock_silent (cfg : SplitterConfig) (hp : Helpers) (faults : Faults)
    (db : Store) (stats : Stats) (B : BTCBlockData)
    (hb : faults Step.begin = false) (hg : faults Step.getBlock = false)
    (ht : faults Step.findTipGenesis = false) (hr : faults Step.findTipReorg = false)
    (h : silentlyDropped db B) :
    SaveBlock cfg hp faults db stats B = ⟨none, db, stats, [Call.Rollback]⟩ := by
  rcases h with ⟨h0, hne⟩ | ⟨h0, stored, hstored, hh | ⟨top, htip, hold⟩⟩
  · exact SaveBlock_genesis_present cfg hp faults db stats B hb hg ht h0 hne
  · exact SaveBlock_duplicate cfg hp faults db stats B stored hb hg h0 hstored hh
  · by_cases hh : stored.Hash = B.Block.Hash
    · exact SaveBlock_duplicate cfg hp faults db stats B stored hb hg h0 hstored hh
    · unfold SaveBlock
      simp [hb, hg, hr, h0, hstored, hh, htip, hold]

theorem SaveBlock_idempotent (cfg : SplitterConfig) (hp : Helpers) (faults faults1 : Faults)
    (db : Store) (stats stats1 : Stats) (B : BTCBlockData)
    (hok : (SaveBlock cfg hp faults db stats B).err = none)
    (hb : faults1 Step.begin = false) (hg : faults1 Step.getBlock = false)
    (ht : faults1 Step.findTipGenesis = false) (hr : faults1 Step.findTipReorg = false) :
    SaveBlock cfg hp faults1 (SaveBlock cfg hp faults db stats B).db stats1 B =
      ⟨none, (SaveBlock cfg hp faults db stats B).db, stats1, [Call.Rollback]⟩ := by
  rcases SaveBlock_cases cfg hp faults db stats B with ⟨hdb, _, hs⟩ | ⟨_, _, pre, htab, _, hpre, _⟩
  · rw [hdb]
    exact SaveBlock_silent cfg hp faults1 db stats1 B hb hg ht hr (hs hok).2.2
  · apply SaveBlock_silent cfg hp faults1 _ stats1 B hb hg ht hr
    by_cases h0 : B.Block.Height = 0
    · exact Or.inl ⟨h0, committedTable_ne_nil htab⟩
    · obtain ⟨b, hfind, hhash⟩ := committedTable_find htab (hpre h0)
      exact Or.inr ⟨h0, b, hfind, Or.inl hhash⟩

theorem RevertBlock_noFaults (hp : Helpers) (i : Int) (tx : Store) :
    ∃ tx1, RevertBlock hp noFaults i tx = Except.ok tx1 := by
  unfold RevertBlock
  simp [noFaults]

theorem revertLoop_noFaults (cfg : SplitterConfig) (hp : Helpers)
    (homni : cfg.OmniEnable = false) :
    ∀ (hs : List Int) (s : TxState), ∃ s1, revertLoop cfg hp noFaults hs s = Except.ok s1 := by
  intro hs
  induction hs with
  | nil =>
    intro s
    exact ⟨s, rfl⟩
  | cons i rest ih =>
    intro s
    obtain ⟨tx1, h1⟩ := RevertBlock_noFaults hp i s.tx
    simp only [revertLoop, h1, homni, Bool.false_eq_true, if_false]
    exact ih _

theorem writeBlock_noFaults (cfg : SplitterConfig) (hp : Helpers)
    (homni : cfg.OmniEnable = false) (B : BTCBlockData) (tx : Store) :
    ∃ tx1, writeBlock cfg hp noFaults B tx = Except.ok tx1 := by
  have h1 : ∃ d1 t1, writeHeader cfg hp noFaults B tx = Except.ok (d1, t1) := by
    unfold writeHeader
    by_cases hc : cfg.DatabaseType ≠ "postgres" <;> simp [noFaults, hc]
  obtain ⟨d1, t1, h1⟩ := h1
  have h2 : ∃ d2 t2, writeOutputs hp noFaults d1 t1 = Except.ok (d2, t2) := by
    unfold writeOutputs
    simp [noFaults]
  obtain ⟨d2, t2, h2⟩ := h2
  have h3 : ∃ t3, writeTransactions cfg hp noFaults d2 t2 = Except.ok t3 := by
    unfold writeTransactions
    by_cases hc : cfg.DatabaseType ≠ "postgres" <;> simp [noFaults, hc]
  obtain ⟨t3, h3⟩ := h3
  have h4 : ∃ t4, writeInputs hp noFaults d2 t3 = Except.ok t4 := by
    unfold writeInputs
    simp [noFaults]
  obtain ⟨t4, h4⟩ := h4
  unfold writeBlock
  simp only [h1, h2, h3, h4]
  unfold writeOverlay
  simp [homni]

theorem writeAndCommit_noFaults (cfg : SplitterConfig) (hp : Helpers)
    (homni : cfg.OmniEnable = false) (db : Store) (s : TxState) (B : BTCBlockData) :
    (writeAndCommit cfg hp noFaults db s B).err = none := by
  obtain ⟨tx1, h⟩ := writeBlock_noFaults cfg hp homni B s.tx
  unfold writeAndCommit
  simp [h, noFaults]

theorem SaveBlock_noFaults (cfg : SplitterConfig) (hp : Helpers)
    (homni : cfg.OmniEnable = false) (db : Store) (stats : Stats) (B : BTCBlockData) :
    (SaveBlock cfg hp noFaults db stats B).err = none := by
  unfold SaveBlock
  have hf : ∀ s, noFaults s = false := fun _ => rfl
  simp only [hf, Bool.false_eq_true, if_false, and_false]
  by_cases h2 : B.Block.Height = 0 ∧ latestBlock db.btc_block ≠ none
  · rw [if_pos h2]
  rw [if_neg h2]
  cases hfind : db.btc_block.find? (fun b => decide (b.Height = B.Block.Height)) with
  | none => exact writeAndCommit_noFaults cfg hp homni db _ B
  | some stored =>
    simp only
    by_cases h0 : B.Block.Height = 0
    · rw [if_neg (by simpa using h0)]
      exact writeAndCommit_noFaults cfg hp homni db _ B
    · rw [if_pos h0]
      by_cases hh : stored.Hash = B.Block.Hash
      · rw [if_pos hh]
      rw [if_neg hh]
      cases htip : latestBlock db.btc_block with
      | none =>
        have hm := List.mem_of_find?_eq_some hfind
        rw [(latestBlock_eq_none _).1 htip] at hm
        simp at hm
      | some top =>
        simp only
        by_cases hold : top.Height - B.Block.Height > 6
        · rw [if_pos hold]
        rw [if_neg hold]
        obtain ⟨s2, h2⟩ := revertLoop_noFaults cfg hp homni
          (heightsDown top.Height B.Block.Height) ⟨db, stats, []⟩
        rw [h2]
        exact writeAndCommit_noFaults cfg hp homni db _ B

/-! ## Ingestion loop: parent continuity -/

theorem jsonSchemaValid_commit (hp : Helpers) (stats : Stats) (data : String) :
    (jsonSchemaValid hp stats data).2.database_commit = stats.database_commit := by
  unfold jsonSchemaValid
  split
  · rfl
  · split
    · split <;> rfl
    · rfl

theorem CheckBlock_ok_parent {cfg : SplitterConfig} {faults : Faults} {db : Store}
    {B : BTCBlockData} (h : (CheckBlock cfg faults db B).ok = true) :
    ∃ p ∈ db.btc_block, p.Height = B.Block.Height - 1 ∧ p.Hash = B.Block.PreviousHash := by
  unfold CheckBlock at h
  simp only at h
  by_cases h1 : faults Step.checkFindPrevious = true
  · simp [h1] at h
  rw [if_neg h1] at h
  by_cases h2 : (blocksAt db.btc_block (B.Block.Height - 1)).length ≠ 1
  · rw [if_pos h2] at h
    by_cases h3 : faults Step.checkFindTip = true
    · simp [h3] at h
    · simp [h3] at h
  rw [if_neg h2] at h
  rcases hpre : blocksAt db.btc_block (B.Block.Height - 1) with _ | ⟨p, rest⟩
  · simp [hpre] at h
  · rw [hpre] at h
    simp only at h
    by_cases h4 : p.Hash ≠ B.Block.PreviousHash
    · simp [h4] at h
    · have hm : p ∈ blocksAt db.btc_block (B.Block.Height - 1) := by
        rw [hpre]
        simp
      exact ⟨p, (mem_blocksAt.1 hm).1, (mem_blocksAt.1 hm).2, by simpa using h4⟩

theorem saveAndMark_cases (cfg : SplitterConfig) (hp : Helpers) (faults : Faults)
    (msg : Message) (B : BTCBlockData) (s : LoopState) :
    (saveAndMark cfg hp faults msg B s).1.missedBlockList = s.missedBlockList ∧
    (((saveAndMark cfg hp faults msg B s).1.db = s.db ∧
        (saveAndMark cfg hp faults msg B s).1.stats.database_commit = s.stats.database_commit) ∨
      ((saveAndMark cfg hp faults msg B s).2 = Outcome.next ∧
        ∃ pre, committedTable B pre (saveAndMark cfg hp faults msg B s).1.db.btc_block ∧
          (pre = s.db.btc_block ∨
            pre = s.db.btc_block.filter (fun b => decide (b.Height < B.Block.Height))))) := by
  unfold saveAndMark
  by_cases hd : cfg.DatabaseEnable = true
  · rw [if_pos hd]
    rcases SaveBlock_cases cfg hp faults s.db s.stats B with
      ⟨hdb, hc, _⟩ | ⟨hok, _, pre, htab, hsub, _, _⟩
    · cases he : (SaveBlock cfg hp faults s.db s.stats B).err with
      | none =>
        simp only [he]
        exact ⟨trivial, Or.inl ⟨hdb, hc⟩⟩
      | some e =>
        simp only [he]
        exact ⟨trivial, Or.inl ⟨hdb, hc⟩⟩
    · simp only [hok]
      exact ⟨trivial, Or.inr ⟨trivial, pre, htab, hsub⟩⟩
  · rw [if_neg hd]
    exact ⟨rfl, Or.inl ⟨rfl, rfl⟩⟩

theorem attempt_cases (cfg : SplitterConfig) (hp : Helpers) (faults : Faults)
    (msg : Message) (B : BTCBlockData) (s : LoopState)
    (hparse : hp.ParseBlock msg.Data = some B) (hmiss : B.Block.Height ∉ s.missedBlockList) :
    B.Block.Height ∉ (attempt cfg hp faults msg s).1.missedBlockList ∧
    (((attempt cfg hp faults msg s).1.db = s.db ∧
        (attempt cfg hp faults msg s).1.stats.database_commit = s.stats.database_commit) ∨
      ((attempt cfg hp faults msg s).2 = Outcome.next ∧
        (B.Block.Height = 0 ∨
          ∃ p ∈ s.db.btc_block, p.Height = B.Block.Height - 1 ∧
            p.Hash = B.Block.PreviousHash) ∧
        ∃ pre, committedTable B pre (attempt cfg hp faults msg s).1.db.btc_block ∧
          (pre = s.db.btc_block ∨
            pre = s.db.btc_block.filter (fun b => decide (b.Height < B.Block.Height))))) := by
  have hstats : (if cfg.JSONSchemaValidationEnable = true then
      (jsonSchemaValid hp s.stats msg.Data).2 else s.stats).database_commit
      = s.stats.database_commit := by
    split
    · exact jsonSchemaValid_commit hp s.stats msg.Data
    · rfl
  unfold attempt
  simp only [hparse, hmiss, not_false_eq_true, if_true]
  by_cases hc : B.Block.Height ≠ 0 ∧ (CheckBlock cfg faults s.db B).ok = false
  · rw [if_pos hc]
    exact ⟨hmiss, Or.inl ⟨rfl, hstats⟩⟩
  · rw [if_neg hc]
    have hpar : B.Block.Height = 0 ∨
        ∃ p ∈ s.db.btc_block, p.Height = B.Block.Height - 1 ∧
          p.Hash = B.Block.PreviousHash := by
      by_cases h0 : B.Block.Height = 0
      · exact Or.inl h0
      · right
        apply @CheckBlock_ok_parent cfg faults
        by_contra hne
        exact hc ⟨h0, by simpa using hne⟩
    obtain ⟨hm, hcase⟩ := saveAndMark_cases cfg hp faults msg B
      { s with stats := (if cfg.JSONSchemaValidationEnable = true then
                  (jsonSchemaValid hp s.stats msg.Data).2 else s.stats),
               calls := s.calls ++ (CheckBlock cfg faults s.db B).calls }
    refine ⟨by rw [hm]; exact hmiss, ?_⟩
    rcases hcase with ⟨hdb, hcm⟩ | ⟨ho, pre, htab, hsub⟩
    · exact Or.inl ⟨hdb, by rw [hcm]; exact hstats⟩
    · exact Or.inr ⟨ho, hpar, pre, htab, hsub⟩

theorem retryLoop_parent_continuity (cfg : SplitterConfig) (hp : Helpers)
    (faults : Nat → Faults) (msg : Message) (B : BTCBlockData)
    (hparse : hp.ParseBlock msg.Data = some B) :
    ∀ (fuel k : Nat) (s : LoopState), B.Block.Height ∉ s.missedBlockList →
      (B.Block.Height ≠ 0 →
        ((retryLoop cfg hp faults msg fuel k s).1.db = s.db ∧
          (retryLoop cfg hp faults msg fuel k s).1.stats.database_commit
            = s.stats.database_commit) ∨
        ∃ p ∈ s.db.btc_block, p.Height = B.Block.Height - 1 ∧
          p.Hash = B.Block.PreviousHash) ∧
      (parentContinuity s.db.btc_block →
        parentContinuity (retryLoop cfg hp faults msg fuel k s).1.db.btc_block) := by
  intro fuel
  induction fuel with
  | zero =>
    intro k s _
    exact ⟨fun _ => Or.inl ⟨rfl, rfl⟩, fun h => h⟩
  | succ fuel ih =>
    intro k s hmiss
    obtain ⟨hm1, hcase⟩ := attempt_cases cfg hp (faults k) msg B s hparse hmiss
    simp only [retryLoop]
    rcases hatt : attempt cfg hp (faults k) msg s with ⟨s1, o⟩
    rw [hatt] at hm1 hcase
    simp only at hm1 hcase
    cases o with
    | next =>
      simp only
      rcases hcase with ⟨hdb, hcm⟩ | ⟨_, hpar, pre, htab, hsub⟩
      · exact ⟨fun _ => Or.inl ⟨hdb, hcm⟩, fun h => by rw [hdb]; exact h⟩
      · refine ⟨fun h0 => Or.inr ?_, fun hP => ?_⟩
        · rcases hpar with h | h
          · exact absurd h h0
          · exact h
        · apply committedTable_parentContinuity htab hP hsub
          rcases hpar with h | h
          · exact Or.inl (by omega)
          · exact Or.inr h
    | retry =>
      simp only
      rcases hcase with ⟨hdb, hcm⟩ | ⟨ho, _⟩
      · obtain ⟨i1, i2⟩ := ih (k + 1) s1 hm1
        rw [hdb, hcm] at i1
        rw [hdb] at i2
        exact ⟨i1, i2⟩
      · cases ho

/-- C4 as stated fails: with height 5 in `missedBlockList` the linkage check is skipped
and block 5 is committed on a store that holds only the genesis block; parent
continuity held before the iteration and does not hold after it. -/
theorem iteration_parent_continuity_counterexample :
    parentContinuity (storeOf [header 0 "h0" ""]).btc_block ∧
    (message (header 5 "h5" "h4")).Block.Height ≠ 0 ∧
    blocksAt (storeOf [header 0 "h0" ""]).btc_block
      ((message (header 5 "h5" "h4")).Block.Height - 1) = [] ∧
    (iteration (config 100) (plainHelpers (fun _ => some (message (header 5 "h5" "h4"))))
        (fun _ => noFaults) ⟨"block 5", 7⟩ 1
        ⟨storeOf [header 0 "h0" ""], [5], zeroStats, []⟩).1.stats.database_commit = 1 ∧
    blocksAt (iteration (config 100)
        (plainHelpers (fun _ => some (message (header 5 "h5" "h4"))))
        (fun _ => noFaults) ⟨"block 5", 7⟩ 1
        ⟨storeOf [header 0 "h0" ""], [5], zeroStats, []⟩).1.db.btc_block 5
      = [{ header 5 "h5" "h4" with Miner := "unknown" }] ∧
    ¬ parentContinuity (iteration (config 100)
        (plainHelpers (fun _ => some (message (header 5 "h5" "h4"))))
        (fun _ => noFaults) ⟨"block 5", 7⟩ 1
        ⟨storeOf [header 0 "h0" ""], [5], zeroStats, []⟩).1.db.btc_block := by
  decide

/-- C4, amended. For a delivered block `B` whose height is not in `missedBlockList`, one
iteration of the ingestion loop (any number of passes, any faults) commits to the store
only if `B.Height = 0` or a block is stored at `B.Height - 1` whose hash is
`B.PreviousHash`; and it preserves parent continuity of the block table. -/
theorem iteration_parent_continuity (cfg : SplitterConfig) (hp : Helpers)
    (faults : Nat → Faults) (msg : Message) (fuel : Nat) (s : LoopState) (B : BTCBlockData)
    (hparse : hp.ParseBlock msg.Data = some B) (hmiss : B.Block.Height ∉ s.missedBlockList) :
    (B.Block.Height ≠ 0 →
      ((iteration cfg hp faults msg fuel s).1.db = s.db ∧
        (iteration cfg hp faults msg fuel s).1.stats.database_commit
          = s.stats.database_commit) ∨
      ∃ p ∈ s.db.btc_block, p.Height = B.Block.Height - 1 ∧
        p.Hash = B.Block.PreviousHash) ∧
    (parentContinuity s.db.btc_block →
      parentContinuity (iteration cfg hp faults msg fuel s).1.db.btc_block) := by
  unfold iteration
  exact retryLoop_parent_continuity cfg hp faults msg B hparse fuel 0
    { s with stats := { s.stats with receive_messages := s.stats.receive_messages + 1 } }
    hmiss

/-- Witness for C4 (amended): the genesis block `h0` is stored, block 1 naming it as
parent is delivered with an empty `missedBlockList`; it is committed and continuity is
kept. -/
theorem iteration_parent_continuity_witness :
    parentContinuity (iteration (config 100)
        (plainHelpers (fun _ => some (message (header 1 "h1" "h0"))))
        (fun _ => noFaults) ⟨"block 1", 7⟩ 1
        ⟨storeOf [header 0 "h0" ""], [], zeroStats, []⟩).1.db.btc_block ∧
    (iteration (config 100)
        (plainHelpers (fun _ => some (message (header 1 "h1" "h0"))))
        (fun _ => noFaults) ⟨"block 1", 7⟩ 1
        ⟨storeOf [header 0 "h0" ""], [], zeroStats, []⟩).1.stats.database_commit = 1 :=
  ⟨(iteration_parent_continuity (config 100)
      (plainHelpers (fun _ => some (message (header 1 "h1" "h0"))))
      (fun _ => noFaults) ⟨"block 1", 7⟩ 1
      ⟨storeOf [header 0 "h0" ""], [], zeroStats, []⟩
      (message (header 1 "h1" "h0")) rfl (by decide)).2 (by decide), by decide⟩

/-! ## Ingestion loop: idempotent delivery -/

theorem saveAndMark_noFaults (cfg : SplitterConfig) (hp : Helpers) (msg : Message)
    (B : BTCBlockData) (s : LoopState) (hdb : cfg.DatabaseEnable = true)
    (homni : cfg.OmniEnable = false) :
    (saveAndMark cfg hp noFaults msg B s).2 = Outcome.next ∧
      (saveAndMark cfg hp noFaults msg B s).1.db
        = (SaveBlock cfg hp noFaults s.db s.stats B).db := by
  have hok := SaveBlock_noFaults cfg hp homni s.db s.stats B
  unfold saveAndMark
  rw [if_pos hdb]
  simp only [hok]
  exact ⟨trivial, trivial⟩

theorem attempt_noFaults_first (cfg : SplitterConfig) (hp : Helpers) (msg : Message)
    (B : BTCBlockData) (s : LoopState) (hdb : cfg.DatabaseEnable = true)
    (homni : cfg.OmniEnable = false) (hparse : hp.ParseBlock msg.Data = some B) :
    (attempt cfg hp noFaults msg s).2 = Outcome.next ∧
    ((∀ st, SaveBlock cfg hp noFaults (attempt cfg hp noFaults msg s).1.db st B =
          ⟨none, (attempt cfg hp noFaults msg s).1.db, st, [Call.Rollback]⟩) ∨
      ((attempt cfg hp noFaults msg s).1.db = s.db ∧
        (attempt cfg hp noFaults msg s).1.missedBlockList = s.missedBlockList ∧
        B.Block.Height ∉ s.missedBlockList ∧ B.Block.Height ≠ 0 ∧
        (CheckBlock cfg noFaults s.db B).ok = false)) := by
  have hsave : ∀ t : LoopState,
      (saveAndMark cfg hp noFaults msg B t).2 = Outcome.next ∧
      ∀ st, SaveBlock cfg hp noFaults (saveAndMark cfg hp noFaults msg B t).1.db st B =
          ⟨none, (saveAndMark cfg hp noFaults msg B t).1.db, st, [Call.Rollback]⟩ := by
    intro t
    obtain ⟨h1, h2⟩ := saveAndMark_noFaults cfg hp msg B t hdb homni
    refine ⟨h1, fun st => ?_⟩
    rw [h2]
    exact SaveBlock_idempotent cfg hp noFaults noFaults t.db t.stats st B
      (SaveBlock_noFaults cfg hp homni t.db t.stats B) rfl rfl rfl rfl
  unfold attempt
  simp only [hparse]
  by_cases hm : B.Block.Height ∉ s.missedBlockList
  · rw [if_pos hm]
    by_cases hc : B.Block.Height ≠ 0 ∧ (CheckBlock cfg noFaults s.db B).ok = false
    · rw [if_pos hc]
      exact ⟨rfl, Or.inr ⟨rfl, rfl, hm, hc.1, hc.2⟩⟩
    · rw [if_neg hc]
      exact ⟨(hsave _).1, Or.inl (hsave _).2⟩
  · rw [if_neg hm]
    exact ⟨(hsave _).1, Or.inl (hsave _).2⟩

theorem attempt_noFaults_second (cfg : SplitterConfig) (hp : Helpers) (msg : Message)
    (B : BTCBlockData) (s : LoopState) (hdb : cfg.DatabaseEnable = true)
    (homni : cfg.OmniEnable = false) (hparse : hp.ParseBlock msg.Data = some B)
    (h : (∀ st, SaveBlock cfg hp noFaults s.db st B = ⟨none, s.db, st, [Call.Rollback]⟩) ∨
      (B.Block.Height ∉ s.missedBlockList ∧ B.Block.Height ≠ 0 ∧
        (CheckBlock cfg noFaults s.db B).ok = false)) :
    (attempt cfg hp noFaults msg s).2 = Outcome.next ∧
      (attempt cfg hp noFaults msg s).1.db = s.db := by
  have hsave : ∀ t : LoopState, t.db = s.db →
      (∀ st, SaveBlock cfg hp noFaults s.db st B = ⟨none, s.db, st, [Call.Rollback]⟩) →
      (saveAndMark cfg hp noFaults msg B t).2 = Outcome.next ∧
      (saveAndMark cfg hp noFaults msg B t).1.db = s.db := by
    intro t ht hq
    obtain ⟨h1, h2⟩ := saveAndMark_noFaults cfg hp msg B t hdb homni
    refine ⟨h1, ?_⟩
    rw [h2, ht, hq]
  unfold attempt
  simp only [hparse]
  by_cases hm : B.Block.Height ∉ s.missedBlockList
  · rw [if_pos hm]
    by_cases hc : B.Block.Height ≠ 0 ∧ (CheckBlock cfg noFaults s.db B).ok = false
    · rw [if_pos hc]
      exact ⟨rfl, rfl⟩
    · rw [if_neg hc]
      rcases h with hq | ⟨_, h0, hck⟩
      · exact hsave _ rfl hq
      · exact absurd ⟨h0, hck⟩ hc
  · rw [if_neg hm]
    rcases h with hq | ⟨hm2, _, _⟩
    · exact hsave _ rfl hq
    · exact absurd hm2 hm

/-- C5. With persistence enabled, the overlay disabled and no failing operation, the
iteration for a block message `B` moves on after one pass, and running it a second time
on the state it produced moves on as well and leaves the store exactly as the first
run left it.  In particular `SaveBlock` on a block of height `> 0` whose height is
stored with the same hash returns success after a bare `Rollback`, with the store and
every counter (so `database_commit`, `database_rollback`, `revert_block`) unchanged. -/
theorem idempotent_delivery (cfg : SplitterConfig) (hp : Helpers) (msg : Message)
    (s : LoopState) (B : BTCBlockData) (fuel : Nat) (hdb : cfg.DatabaseEnable = true)
    (homni : cfg.OmniEnable = false) (hparse : hp.ParseBlock msg.Data = some B) :
    ((iteration cfg hp (fun _ => noFaults) msg (fuel + 1) s).2 = true ∧
      (iteration cfg hp (fun _ => noFaults) msg (fuel + 1)
        (iteration cfg hp (fun _ => noFaults) msg (fuel + 1) s).1).2 = true ∧
      (iteration cfg hp (fun _ => noFaults) msg (fuel + 1)
        (iteration cfg hp (fun _ => noFaults) msg (fuel + 1) s).1).1.db
        = (iteration cfg hp (fun _ => noFaults) msg (fuel + 1) s).1.db) ∧
    (∀ (faults : Faults) (db : Store) (stats : Stats) (D : BTCBlockData) (stored : Block),
      faults Step.begin = false → faults Step.getBlock = false → 0 < D.Block.Height →
      db.btc_block.find? (fun b => decide (b.Height = D.Block.Height)) = some stored →
      stored.Hash = D.Block.Hash →
      SaveBlock cfg hp faults db stats D = ⟨none, db, stats, [Call.Rollback]⟩) := by
  constructor
  · have hiter : ∀ t : LoopState,
        iteration cfg hp (fun _ => noFaults) msg (fuel + 1) t =
          ((attempt cfg hp noFaults msg
            { t with stats :=
              { t.stats with receive_messages := t.stats.receive_messages + 1 } }).1, true) := by
      intro t
      have h1 := (attempt_noFaults_first cfg hp msg B
        { t with stats := { t.stats with receive_messages := t.stats.receive_messages + 1 } }
        hdb homni hparse).1
      unfold iteration
      simp only [retryLoop]
      rcases hatt : attempt cfg hp noFaults msg
        { t with stats := { t.stats with receive_messages := t.stats.receive_messages + 1 } }
        with ⟨t1, o⟩
      rw [hatt] at h1
      simp only at h1
      subst h1
      rfl
    obtain ⟨_, hfirst⟩ := attempt_noFaults_first cfg hp msg B
      { s with stats := { s.stats with receive_messages := s.stats.receive_messages + 1 } }
      hdb homni hparse
    rw [hiter s, hiter _]
    refine ⟨rfl, rfl, ?_⟩
    simp only
    refine (attempt_noFaults_second cfg hp msg B _ hdb homni hparse ?_).2
    rcases hfirst with hq | ⟨hd, hm, hmiss, h0, hck⟩
    · exact Or.inl hq
    · right
      simp only
      rw [hd, hm]
      exact ⟨hmiss, h0, hck⟩
  · intro faults db stats D stored hb hg hpos hstored hhash
    exact SaveBlock_duplicate cfg hp faults db stats D stored hb hg (by omega) hstored hhash

/-- Witness for C5: the store holds `h49, h50` and the message carries `h50` again. -/
theorem idempotent_delivery_witness :
    (iteration (config 100) (plainHelpers (fun _ => some (message (header 50 "h50" "h49"))))
        (fun _ => noFaults) ⟨"block 50", 3⟩ 1
        (iteration (config 100)
          (plainHelpers (fun _ => some (message (header 50 "h50" "h49"))))
          (fun _ => noFaults) ⟨"block 50", 3⟩ 1
          ⟨storeOf [header 49 "h49" "h48", header 50 "h50" "h49"], [], zeroStats, []⟩).1).1.db
      = (iteration (config 100)
          (plainHelpers (fun _ => some (message (header 50 "h50" "h49"))))
          (fun _ => noFaults) ⟨"block 50", 3⟩ 1
          ⟨storeOf [header 49 "h49" "h48", header 50 "h50" "h49"], [], zeroStats, []⟩).1.db :=
  (idempotent_delivery (config 100)
      (plainHelpers (fun _ => some (message (header 50 "h50" "h49")))) ⟨"block 50", 3⟩
      ⟨storeOf [header 49 "h49" "h48", header 50 "h50" "h49"], [], zeroStats, []⟩
      (message (header 50 "h50" "h49")) 0 rfl rfl rfl).1.2.2

/-! ## Ingestion loop: offset commit discipline -/

theorem unmarked_append {xs ys : List Call} :
    unmarked (xs ++ ys) ↔ unmarked xs ∧ unmarked ys := by
  unfold unmarked
  constructor
  · intro h
    exact ⟨fun o ho => h o (List.mem_append_left _ ho),
      fun o ho => h o (List.mem_append_right _ ho)⟩
  · rintro ⟨h1, h2⟩ o ho
    rcases List.mem_append.1 ho with h | h
    · exact h1 o h
    · exact h2 o h

theorem unmarked_of_transactionCall {l : List Call}
    (h : ∀ c ∈ l, transactionCall c = true) : unmarked l := by
  intro o ho
  have := h _ ho
  simp [transactionCall] at this

theorem markedAfterSave_of_unmarked {l : List Call} (h : unmarked l) : markedAfterSave l := by
  intro before after o hl
  exfalso
  apply h o
  rw [hl]
  simp

theorem markedAfterSave_append {xs ys : List Call} (hx : unmarked xs)
    (hy : markedAfterSave ys) : markedAfterSave (xs ++ ys) := by
  intro before after o hl
  rcases List.append_eq_append_iff.1 hl with ⟨a, hb, hys⟩ | ⟨c, hxs, hc⟩
  · obtain ⟨e, he⟩ := hy a after o hys
    exact ⟨xs ++ e, by rw [hb, he, List.append_assoc]⟩
  · cases c with
    | nil =>
      simp only [List.nil_append] at hc
      obtain ⟨e, he⟩ := hy [] after o (by rw [← hc]; rfl)
      simp at he
    | cons d c =>
      simp only [List.cons_append, List.cons.injEq] at hc
      exfalso
      apply hx o
      rw [hxs, hc.1]
      simp

theorem markedAfterSave_pair (o : Nat) :
    markedAfterSave [Call.SaveBlockReturned true, Call.MarkOffset o] := by
  intro before after o1 hl
  cases before with
  | nil => simp at hl
  | cons a before =>
    simp only [List.cons_append, List.cons.injEq] at hl
    cases before with
    | nil => exact ⟨[], by rw [hl.1]; rfl⟩
    | cons b before =>
      simp only [List.cons_append, List.cons.injEq] at hl
      have := hl.2.2
      simp at this

theorem CheckBlock_calls (cfg : SplitterConfig) (faults : Faults) (db : Store)
    (B : BTCBlockData) :
    ∀ c ∈ (CheckBlock cfg faults db B).calls, ∃ a b, c = Call.SendBatchBlock a b := by
  unfold CheckBlock
  simp only
  by_cases h1 : faults Step.checkFindPrevious = true
  · simp [h1]
  rw [if_neg h1]
  by_cases h2 : (blocksAt db.btc_block (B.Block.Height - 1)).length ≠ 1
  · rw [if_pos h2]
    by_cases h3 : faults Step.checkFindTip = true
    · simp [h3]
    · simp [h3]
  rw [if_neg h2]
  rcases blocksAt db.btc_block (B.Block.Height - 1) with _ | ⟨p, rest⟩
  · simp
  · by_cases h4 : p.Hash ≠ B.Block.PreviousHash
    · simp [h4]
    · simp only [h4, if_false]
      simp

theorem revertLoop_calls {cfg : SplitterConfig} {hp : Helpers} {faults : Faults} :
    ∀ (hs : List Int) (s : TxState), (∀ c ∈ s.calls, transactionCall c = true) →
      match revertLoop cfg hp faults hs s with
      | Except.ok s1 => ∀ c ∈ s1.calls, transactionCall c = true
      | Except.error (_, s1) => ∀ c ∈ s1.calls, transactionCall c = true := by
  intro hs
  induction hs with
  | nil =>
    intro s h
    simpa [revertLoop] using h
  | cons i rest ih =>
    intro s h
    simp only [revertLoop]
    cases h1 : RevertBlock hp faults i s.tx with
    | error e =>
      simp only
      intro c hc
      rcases List.mem_append.1 hc with hc | hc
      · exact h c hc
      · simp only [List.mem_singleton] at hc
        subst hc
        rfl
    | ok tx1 =>
      simp only
      by_cases ho : cfg.OmniEnable = true
      · rw [if_pos ho]
        have hcalls : ∀ c ∈ s.calls ++ [Call.RevertBlock i, Call.RevertTetherAddress i],
            transactionCall c = true := by
          intro c hc
          rcases List.mem_append.1 hc with hc | hc
          · exact h c hc
          · simp only [List.mem_cons, List.mem_singleton, List.not_mem_nil, or_false] at hc
            rcases hc with rfl | rfl <;> rfl
        cases h2 : RevertTetherAddress hp faults i tx1 with
        | error e => exact hcalls
        | ok tx2 => exact ih _ hcalls
      · rw [if_neg ho]
        apply ih
        intro c hc
        rcases List.mem_append.1 hc with hc | hc
        · exact h c hc
        · simp only [List.mem_singleton] at hc
          subst hc
          rfl

theorem writeAndCommit_calls (cfg : SplitterConfig) (hp : Helpers) (faults : Faults)
    (db : Store) (s : TxState) (B : BTCBlockData)
    (h : ∀ c ∈ s.calls, transactionCall c = true) :
    ∀ c ∈ (writeAndCommit cfg hp faults db s B).calls, transactionCall c = true := by
  intro c hc
  rcases writeAndCommit_cases cfg hp faults db s B with ⟨e, he⟩ | ⟨_, _, hcalls, _⟩
  · rw [he] at hc
    rcases List.mem_append.1 hc with hc | hc
    · exact h c hc
    · simp only [List.mem_singleton] at hc
      subst hc
      rfl
  · rw [hcalls] at hc
    rcases List.mem_append.1 hc with hc | hc
    · exact h c hc
    · simp only [List.mem_singleton] at hc
      subst hc
      rfl

theorem SaveBlock_calls (cfg : SplitterConfig) (hp : Helpers) (faults : Faults)
    (db : Store) (stats : Stats) (B : BTCBlockData) :
    ∀ c ∈ (SaveBlock cfg hp faults db stats B).calls, transactionCall c = true := by
  have hnil : ∀ c ∈ ([] : List Call), transactionCall c = true := by simp
  unfold SaveBlock
  by_cases hb : faults Step.begin = true
  · simp [hb, rollbackWith, transactionCall]
  by_cases hg : faults Step.getBlock = true
  · simp [hb, hg, rollbackWith, transactionCall]
  simp only [hb, hg, Bool.false_eq_true, if_false]
  by_cases h1 : B.Block.Height = 0 ∧ faults Step.findTipGenesis = true
  · simp [h1]
  rw [if_neg h1]
  by_cases h2 : B.Block.Height = 0 ∧ latestBlock db.btc_block ≠ none
  · simp [h2, transactionCall]
  rw [if_neg h2]
  cases hfind : db.btc_block.find? (fun b => decide (b.Height = B.Block.Height)) with
  | none => exact writeAndCommit_calls cfg hp faults db _ B hnil
  | some stored =>
    simp only
    by_cases h0 : B.Block.Height = 0
    · rw [if_neg (by simpa using h0)]
      exact writeAndCommit_calls cfg hp faults db _ B hnil
    · rw [if_pos h0]
      by_cases hh : stored.Hash = B.Block.Hash
      · simp [hh, transactionCall]
      rw [if_neg hh]
      by_cases ht : faults Step.findTipReorg = true
      · simp [ht, rollbackWith, transactionCall]
      rw [if_neg ht]
      cases htip : latestBlock db.btc_block with
      | none => simp [rollbackWith, transactionCall]
      | some top =>
        simp only
        by_cases hold : top.Height - B.Block.Height > 6
        · simp [hold, transactionCall]
        rw [if_neg hold]
        have hl := @revertLoop_calls cfg hp faults
          (heightsDown top.Height B.Block.Height) ⟨db, stats, []⟩ hnil
        cases hloop : revertLoop cfg hp faults (heightsDown top.Height B.Block.Height)
            ⟨db, stats, []⟩ with
        | error es =>
          obtain ⟨e, s⟩ := es
          rw [hloop] at hl
          simp only at hl ⊢
          intro c hc
          simp only [rollbackWith] at hc
          rcases List.mem_append.1 hc with hc | hc
          · exact hl c hc
          · simp only [List.mem_singleton] at hc
            subst hc
            rfl
        | ok s =>
          rw [hloop] at hl
          exact writeAndCommit_calls cfg hp faults db s B hl

theorem saveAndMark_calls (cfg : SplitterConfig) (hp : Helpers) (faults : Faults)
    (msg : Message) (B : BTCBlockData) (s : LoopState) :
    ∃ new, (saveAndMark cfg hp faults msg B s).1.calls = s.calls ++ new ∧
      markedAfterSave new ∧
      ((saveAndMark cfg hp faults msg B s).2 = Outcome.retry → unmarked new) ∧
      (Call.SaveBlockReturned false ∈ new →
        unmarked new ∧ (saveAndMark cfg hp faults msg B s).2 = Outcome.retry) ∧
      (∀ o, Call.MarkOffset o ∈ new →
        o = msg.Offset ∧ Call.SaveBlockReturned true ∈ new) := by
  have hr := SaveBlock_calls cfg hp faults s.db s.stats B
  have hun : unmarked ([Call.SaveBlock B.Block.Height] ++
      (SaveBlock cfg hp faults s.db s.stats B).calls) := by
    apply unmarked_append.2
    exact ⟨fun o ho => by simp at ho, unmarked_of_transactionCall hr⟩
  unfold saveAndMark
  by_cases hd : cfg.DatabaseEnable = true
  · rw [if_pos hd]
    cases he : (SaveBlock cfg hp faults s.db s.stats B).err with
    | some e =>
      simp only [he]
      have hall : unmarked ([Call.SaveBlock B.Block.Height] ++
          (SaveBlock cfg hp faults s.db s.stats B).calls ++ [Call.SaveBlockReturned false]) :=
        unmarked_append.2 ⟨hun, fun o ho => by simp at ho⟩
      refine ⟨_, by simp only [List.append_assoc], markedAfterSave_of_unmarked hall,
        fun _ => hall, fun _ => ⟨hall, trivial⟩, fun o ho => absurd ho (hall o)⟩
    | none =>
      simp only [he]
      refine ⟨[Call.SaveBlock B.Block.Height] ++
          (SaveBlock cfg hp faults s.db s.stats B).calls ++
          [Call.SaveBlockReturned true, Call.MarkOffset msg.Offset],
        by simp only [List.append_assoc], markedAfterSave_append hun (markedAfterSave_pair _),
        fun h => (by cases h), ?_, ?_⟩
      · intro hmem
        exfalso
        rcases List.mem_append.1 hmem with h | h
        · rcases List.mem_append.1 h with h | h
          · simp at h
          · have := hr _ h
            simp [transactionCall] at this
        · simp at h
      · intro o ho
        rcases List.mem_append.1 ho with h | h
        · exact absurd h (hun o)
        · simp only [List.mem_cons, List.mem_singleton, List.not_mem_nil, or_false] at h
          rcases h with h | h
          · cases h
          · simp only [Call.MarkOffset.injEq] at h
            exact ⟨h, by simp⟩
  · rw [if_neg hd]
    have hnil : unmarked ([] : List Call) := fun o ho => by simp at ho
    refine ⟨[], by simp, markedAfterSave_of_unmarked hnil, fun _ => hnil, ?_, ?_⟩
    · intro h
      simp at h
    · intro o ho
      simp at ho

theorem attempt_calls (cfg : SplitterConfig) (hp : Helpers) (faults : Faults)
    (msg : Message) (s : LoopState) :
    ∃ new, (attempt cfg hp faults msg s).1.calls = s.calls ++ new ∧
      markedAfterSave new ∧
      ((attempt cfg hp faults msg s).2 = Outcome.retry → unmarked new) ∧
      (hp.ParseBlock msg.Data = none →
        unmarked new ∧ (attempt cfg hp faults msg s).2 = Outcome.retry) ∧
      (∀ B, hp.ParseBlock msg.Data = some B → B.Block.Height ∉ s.missedBlockList →
        B.Block.Height ≠ 0 → (CheckBlock cfg faults s.db B).ok = false →
        unmarked new ∧ (attempt cfg hp faults msg s).2 = Outcome.next ∧
          (attempt cfg hp faults msg s).1.db = s.db) ∧
      (Call.SaveBlockReturned false ∈ new →
        unmarked new ∧ (attempt cfg hp faults msg s).2 = Outcome.retry) ∧
      (∀ o, Call.MarkOffset o ∈ new →
        o = msg.Offset ∧ Call.SaveBlockReturned true ∈ new) := by
  have hnil : unmarked ([] : List Call) := fun o ho => by simp at ho
  rcases hparse : hp.ParseBlock msg.Data with _ | B
  · have hatt : attempt cfg hp faults msg s =
        ({ s with stats :=
            { (if cfg.JSONSchemaValidationEnable = true then
                (jsonSchemaValid hp s.stats msg.Data).2 else s.stats) with
              parse_data_error :=
                (if cfg.JSONSchemaValidationEnable = true then
                  (jsonSchemaValid hp s.stats msg.Data).2 else s.stats).parse_data_error + 1 } },
          Outcome.retry) := by
      unfold attempt
      simp only [hparse]
    rw [hatt]
    refine ⟨[], by simp, markedAfterSave_of_unmarked hnil, fun _ => hnil,
      fun _ => ⟨hnil, rfl⟩, ?_, ?_, ?_⟩
    · intro D hD
      cases hD
    · intro h
      simp at h
    · intro o ho
      simp at ho
  · have hck := CheckBlock_calls cfg faults s.db B
    have hckun : unmarked (CheckBlock cfg faults s.db B).calls := by
      intro o ho
      obtain ⟨a, b, hab⟩ := hck _ ho
      cases hab
    by_cases hm : B.Block.Height ∉ s.missedBlockList
    · by_cases hc : B.Block.Height ≠ 0 ∧ (CheckBlock cfg faults s.db B).ok = false
      · have hatt : attempt cfg hp faults msg s =
            ({ s with stats := (if cfg.JSONSchemaValidationEnable = true then
                          (jsonSchemaValid hp s.stats msg.Data).2 else s.stats),
                      calls := s.calls ++ (CheckBlock cfg faults s.db B).calls },
              Outcome.next) := by
          unfold attempt
          simp only [hparse]
          rw [if_pos hm, if_pos hc]
        rw [hatt]
        refine ⟨(CheckBlock cfg faults s.db B).calls, rfl, markedAfterSave_of_unmarked hckun,
          fun _ => hckun, ?_, ?_, ?_, ?_⟩
        · intro h
          cases h
        · intro D _ _ _ _
          exact ⟨hckun, rfl, rfl⟩
        · intro hmem
          obtain ⟨a, b, hab⟩ := hck _ hmem
          cases hab
        · intro o ho
          exact absurd ho (hckun o)
      · have hatt : attempt cfg hp faults msg s =
            saveAndMark cfg hp faults msg B
              { s with stats := (if cfg.JSONSchemaValidationEnable = true then
                          (jsonSchemaValid hp s.stats msg.Data).2 else s.stats),
                       calls := s.calls ++ (CheckBlock cfg faults s.db B).calls } := by
          unfold attempt
          simp only [hparse]
          rw [if_pos hm, if_neg hc]
        rw [hatt]
        obtain ⟨new, hnew, hmk, hret, hsbr, hmo⟩ := saveAndMark_calls cfg hp faults msg B
          { s with stats := (if cfg.JSONSchemaValidationEnable = true then
                      (jsonSchemaValid hp s.stats msg.Data).2 else s.stats),
                   calls := s.calls ++ (CheckBlock cfg faults s.db B).calls }
        refine ⟨(CheckBlock cfg faults s.db B).calls ++ new,
          by rw [hnew, List.append_assoc], markedAfterSave_append hckun hmk,
          fun h => unmarked_append.2 ⟨hckun, hret h⟩, ?_, ?_, ?_, ?_⟩
        · intro h
          cases h
        · intro D hD _ h0 hok
          have hBD : B = D := Option.some.inj hD
          subst hBD
          exact absurd ⟨h0, hok⟩ hc
        · intro hmem
          rcases List.mem_append.1 hmem with h | h
          · obtain ⟨a, b, hab⟩ := hck _ h
            cases hab
          · exact ⟨unmarked_append.2 ⟨hckun, (hsbr h).1⟩, (hsbr h).2⟩
        · intro o ho
          rcases List.mem_append.1 ho with h | h
          · exact absurd h (hckun o)
          · exact ⟨(hmo o h).1, List.mem_append_right _ (hmo o h).2⟩
    · have hatt : attempt cfg hp faults msg s =
          saveAndMark cfg hp faults msg B
            { s with stats := (if cfg.JSONSchemaValidationEnable = true then
                        (jsonSchemaValid hp s.stats msg.Data).2 else s.stats),
                     missedBlockList :=
                       (s.missedBlockList.filter (fun h => decide (h ≠ B.Block.Height))) } := by
        unfold attempt
        simp only [hparse]
        rw [if_neg hm]
      rw [hatt]
      obtain ⟨new, hnew, hmk, hret, hsbr, hmo⟩ := saveAndMark_calls cfg hp faults msg B
        { s with stats := (if cfg.JSONSchemaValidationEnable = true then
                    (jsonSchemaValid hp s.stats msg.Data).2 else s.stats),
                 missedBlockList :=
                   (s.missedBlockList.filter (fun h => decide (h ≠ B.Block.Height))) }
      refine ⟨new, hnew, hmk, hret, ?_, ?_, hsbr, hmo⟩
      · intro h
        cases h
      · intro D hD hDm _ _
        have hBD : B = D := Option.some.inj hD
        subst hBD
        exact absurd hDm hm

theorem retryLoop_calls (cfg : SplitterConfig) (hp : Helpers) (faults : Nat → Faults)
    (msg : Message) :
    ∀ (fuel k : Nat) (s : LoopState),
      ∃ new, (retryLoop cfg hp faults msg fuel k s).1.calls = s.calls ++ new ∧
        markedAfterSave new := by
  intro fuel
  induction fuel with
  | zero =>
    intro k s
    exact ⟨[], by simp [retryLoop], markedAfterSave_of_unmarked (fun o ho => by simp at ho)⟩
  | succ fuel ih =>
    intro k s
    obtain ⟨new, hnew, hmk, hret, _⟩ := attempt_calls cfg hp (faults k) msg s
    simp only [retryLoop]
    rcases hatt : attempt cfg hp (faults k) msg s with ⟨s1, o⟩
    rw [hatt] at hnew hret
    simp only at hnew hret
    cases o with
    | next => exact ⟨new, hnew, hmk⟩
    | retry =>
      obtain ⟨new2, hnew2, hmk2⟩ := ih (k + 1) s1
      exact ⟨new ++ new2, by simp only [hnew2, hnew, List.append_assoc],
        markedAfterSave_append (hret rfl) hmk2⟩

theorem saveAndMark_trace (cfg : SplitterConfig) (hp : Helpers) (faults : Faults)
    (msg : Message) (B : BTCBlockData) (t : LoopState) (hd : cfg.DatabaseEnable = true) :
    (saveAndMark cfg hp faults msg B t).1.calls =
        t.calls ++ ([Call.SaveBlock B.Block.Height] ++
          (SaveBlock cfg hp faults t.db t.stats B).calls ++
          (if (SaveBlock cfg hp faults t.db t.stats B).err = none then
            [Call.SaveBlockReturned true, Call.MarkOffset msg.Offset]
          else [Call.SaveBlockReturned false])) ∧
      (saveAndMark cfg hp faults msg B t).2 =
        (if (SaveBlock cfg hp faults t.db t.stats B).err = none then Outcome.next
          else Outcome.retry) := by
  unfold saveAndMark
  rw [if_pos hd]
  cases he : (SaveBlock cfg hp faults t.db t.stats B).err with
  | some e =>
    simp only [he]
    simp
  | none =>
    simp only [he]
    simp

theorem attempt_trace (cfg : SplitterConfig) (hp : Helpers) (faults : Faults)
    (msg : Message) (s : LoopState) (B : BTCBlockData)
    (hparse : hp.ParseBlock msg.Data = some B) :
    (cfg.DatabaseEnable = true →
      (B.Block.Height ∈ s.missedBlockList ∨ B.Block.Height = 0 ∨
        (CheckBlock cfg faults s.db B).ok = true) →
      (attempt cfg hp faults msg s).1.calls =
          s.calls ++ ((if B.Block.Height ∈ s.missedBlockList then []
              else (CheckBlock cfg faults s.db B).calls) ++
            [Call.SaveBlock B.Block.Height] ++
            (SaveBlock cfg hp faults s.db (validatedStats cfg hp msg s.stats) B).calls ++
            (if (SaveBlock cfg hp faults s.db (validatedStats cfg hp msg s.stats) B).err = none
              then [Call.SaveBlockReturned true, Call.MarkOffset msg.Offset]
              else [Call.SaveBlockReturned false])) ∧
        (attempt cfg hp faults msg s).2 =
          (if (SaveBlock cfg hp faults s.db (validatedStats cfg hp msg s.stats) B).err = none
            then Outcome.next else Outcome.retry)) ∧
    (¬ (cfg.DatabaseEnable = true ∧
        (B.Block.Height ∈ s.missedBlockList ∨ B.Block.Height = 0 ∨
          (CheckBlock cfg faults s.db B).ok = true)) →
      (attempt cfg hp faults msg s).1.calls =
          s.calls ++ (if B.Block.Height ∈ s.missedBlockList then []
            else (CheckBlock cfg faults s.db B).calls) ∧
        (attempt cfg hp faults msg s).2 = Outcome.next ∧
        (attempt cfg hp faults msg s).1.db = s.db) := by
  by_cases hm : B.Block.Height ∉ s.missedBlockList
  · have hm2 : ¬ B.Block.Height ∈ s.missedBlockList := hm
    by_cases hc : B.Block.Height ≠ 0 ∧ (CheckBlock cfg faults s.db B).ok = false
    · have hatt : attempt cfg hp faults msg s =
          ({ s with stats := (if cfg.JSONSchemaValidationEnable = true then
                        (jsonSchemaValid hp s.stats msg.Data).2 else s.stats),
                    calls := s.calls ++ (CheckBlock cfg faults s.db B).calls },
            Outcome.next) := by
        unfold attempt
        simp only [hparse]
        rw [if_pos hm, if_pos hc]
      rw [hatt]
      constructor
      · intro _ hreach
        exfalso
        rcases hreach with h | h | h
        · exact hm h
        · exact hc.1 h
        · rw [hc.2] at h
          cases h
      · intro _
        simp only [if_neg hm2]
        exact ⟨trivial, trivial, trivial⟩
    · have hatt : attempt cfg hp faults msg s =
          saveAndMark cfg hp faults msg B
            { s with stats := (if cfg.JSONSchemaValidationEnable = true then
                        (jsonSchemaValid hp s.stats msg.Data).2 else s.stats),
                     calls := s.calls ++ (CheckBlock cfg faults s.db B).calls } := by
        unfold attempt
        simp only [hparse]
        rw [if_pos hm, if_neg hc]
      have hreach : B.Block.Height = 0 ∨ (CheckBlock cfg faults s.db B).ok = true := by
        by_cases h0 : B.Block.Height = 0
        · exact Or.inl h0
        · right
          by_contra hne
          exact hc ⟨h0, by simpa using hne⟩
      rw [hatt]
      constructor
      · intro hd _
        obtain ⟨h1, h2⟩ := saveAndMark_trace cfg hp faults msg B
          { s with stats := (if cfg.JSONSchemaValidationEnable = true then
                      (jsonSchemaValid hp s.stats msg.Data).2 else s.stats),
                   calls := s.calls ++ (CheckBlock cfg faults s.db B).calls } hd
        simp only [if_neg hm2]
        unfold validatedStats
        refine ⟨?_, h2⟩
        rw [h1]
        simp only [List.append_assoc]
      · intro hnot
        have hd : ¬ cfg.DatabaseEnable = true := fun hd => hnot ⟨hd, Or.inr hreach⟩
        unfold saveAndMark
        rw [if_neg hd]
        simp only [if_neg hm2]
        exact ⟨trivial, trivial, trivial⟩
  · have hm1 : B.Block.Height ∈ s.missedBlockList := by
      by_contra h
      exact hm h
    have hatt : attempt cfg hp faults msg s =
        saveAndMark cfg hp faults msg B
          { s with stats := (if cfg.JSONSchemaValidationEnable = true then
                      (jsonSchemaValid hp s.stats msg.Data).2 else s.stats),
                   missedBlockList :=
                     (s.missedBlockList.filter (fun h => decide (h ≠ B.Block.Height))) } := by
      unfold attempt
      simp only [hparse]
      rw [if_neg hm]
    rw [hatt]
    constructor
    · intro hd _
      obtain ⟨h1, h2⟩ := saveAndMark_trace cfg hp faults msg B
        { s with stats := (if cfg.JSONSchemaValidationEnable = true then
                    (jsonSchemaValid hp s.stats msg.Data).2 else s.stats),
                 missedBlockList :=
                   (s.missedBlockList.filter (fun h => decide (h ≠ B.Block.Height))) } hd
      simp only [if_pos hm1]
      unfold validatedStats
      refine ⟨?_, h2⟩
      rw [h1]
      simp only [List.nil_append, List.append_assoc]
    · intro hnot
      have hd : ¬ cfg.DatabaseEnable = true := fun hd => hnot ⟨hd, Or.inl hm1⟩
      unfold saveAndMark
      rw [if_neg hd]
      simp only [if_pos hm1]
      exact ⟨by simp, trivial, trivial⟩

/-- In a pass that decodes the message to `B`, an offset is marked only if persistence
is enabled, `SaveBlock` was reached and returned no error; and an error of `SaveBlock`
leaves the pass without any mark. -/
theorem attempt_mark (cfg : SplitterConfig) (hp : Helpers) (faults : Faults)
    (msg : Message) (s : LoopState) (B : BTCBlockData) (new : List Call)
    (hparse : hp.ParseBlock msg.Data = some B)
    (hnew : (attempt cfg hp faults msg s).1.calls = s.calls ++ new) :
    (∀ o, Call.MarkOffset o ∈ new →
      o = msg.Offset ∧ cfg.DatabaseEnable = true ∧
      (SaveBlock cfg hp faults s.db (validatedStats cfg hp msg s.stats) B).err = none ∧
      (attempt cfg hp faults msg s).2 = Outcome.next) ∧
    ((SaveBlock cfg hp faults s.db (validatedStats cfg hp msg s.stats) B).err ≠ none →
      unmarked new) := by
  obtain ⟨hreach, hnot⟩ := attempt_trace cfg hp faults msg s B hparse
  have hpre : unmarked (if B.Block.Height ∈ s.missedBlockList then []
      else (CheckBlock cfg faults s.db B).calls) := by
    intro o ho
    split at ho
    · simp at ho
    · obtain ⟨a, b, hab⟩ := CheckBlock_calls cfg faults s.db B _ ho
      cases hab
  have hsave : unmarked ([Call.SaveBlock B.Block.Height] ++
      (SaveBlock cfg hp faults s.db (validatedStats cfg hp msg s.stats) B).calls) :=
    unmarked_append.2 ⟨fun o ho => by simp at ho,
      unmarked_of_transactionCall (SaveBlock_calls cfg hp faults s.db _ B)⟩
  by_cases hr : cfg.DatabaseEnable = true ∧
      (B.Block.Height ∈ s.missedBlockList ∨ B.Block.Height = 0 ∨
        (CheckBlock cfg faults s.db B).ok = true)
  · obtain ⟨hcalls, hout⟩ := hreach hr.1 hr.2
    rw [hnew] at hcalls
    have hnew2 := List.append_cancel_left hcalls
    cases he : (SaveBlock cfg hp faults s.db (validatedStats cfg hp msg s.stats) B).err with
    | none =>
      rw [he] at hout hnew2
      simp only [if_true] at hout hnew2
      refine ⟨fun o ho => ?_, fun h => absurd rfl h⟩
      rw [hnew2] at ho
      rcases List.mem_append.1 ho with h | h
      · rcases List.mem_append.1 h with h | h
        · rcases List.mem_append.1 h with h | h
          · exact absurd h (hpre o)
          · simp at h
        · exact absurd h (unmarked_of_transactionCall (SaveBlock_calls cfg hp faults s.db _ B) o)
      · simp only [List.mem_cons, List.mem_singleton, List.not_mem_nil, or_false] at h
        rcases h with h | h
        · cases h
        · simp only [Call.MarkOffset.injEq] at h
          exact ⟨h, hr.1, rfl, hout⟩
    | some e =>
      rw [he] at hnew2
      simp only [reduceCtorEq, if_false] at hnew2
      have hun : unmarked new := by
        rw [hnew2]
        refine unmarked_append.2 ⟨unmarked_append.2 ⟨unmarked_append.2 ⟨hpre, ?_⟩, ?_⟩, ?_⟩
        · intro o ho
          simp at ho
        · exact unmarked_of_transactionCall (SaveBlock_calls cfg hp faults s.db _ B)
        · intro o ho
          simp at ho
      exact ⟨fun o ho => absurd ho (hun o), fun _ => hun⟩
  · obtain ⟨hcalls, _, _⟩ := hnot hr
    rw [hnew] at hcalls
    have hnew2 := List.append_cancel_left hcalls
    have hun : unmarked new := by
      rw [hnew2]
      exact hpre
    exact ⟨fun o ho => absurd ho (hun o), fun _ => hun⟩

theorem retryLoop_passes (cfg : SplitterConfig) (hp : Helpers) (faults : Nat → Faults)
    (msg : Message) :
    ∀ (fuel k : Nat) (s : LoopState),
      (∃ n, n < fuel ∧
        (∀ j, j < n →
          (attempt cfg hp (faults (k + j)) msg (passFrom cfg hp faults msg k s j)).2
            = Outcome.retry) ∧
        (attempt cfg hp (faults (k + n)) msg (passFrom cfg hp faults msg k s n)).2
          = Outcome.next ∧
        retryLoop cfg hp faults msg fuel k s =
          ((attempt cfg hp (faults (k + n)) msg (passFrom cfg hp faults msg k s n)).1, true)) ∨
      ((∀ j, j < fuel →
          (attempt cfg hp (faults (k + j)) msg (passFrom cfg hp faults msg k s j)).2
            = Outcome.retry) ∧
        retryLoop cfg hp faults msg fuel k s = (passFrom cfg hp faults msg k s fuel, false)) := by
  intro fuel
  induction fuel with
  | zero =>
    intro k s
    right
    exact ⟨fun j hj => absurd hj (Nat.not_lt_zero j), rfl⟩
  | succ fuel ih =>
    intro k s
    rcases hatt : attempt cfg hp (faults k) msg s with ⟨s1, o⟩
    have hs1 : (attempt cfg hp (faults k) msg s).1 = s1 := by rw [hatt]
    have ho : (attempt cfg hp (faults k) msg s).2 = o := by rw [hatt]
    have hshift : ∀ j, passFrom cfg hp faults msg k s (j + 1)
        = passFrom cfg hp faults msg (k + 1) s1 j := by
      intro j
      simp only [passFrom, hs1]
    cases o with
    | next =>
      left
      refine ⟨0, Nat.succ_pos _, fun j hj => absurd hj (Nat.not_lt_zero j), ?_, ?_⟩
      · simpa [passFrom] using ho
      · simp only [retryLoop, hatt, passFrom, Nat.add_zero]
    | retry =>
      have hstep : retryLoop cfg hp faults msg (fuel + 1) k s
          = retryLoop cfg hp faults msg fuel (k + 1) s1 := by
        simp only [retryLoop, hatt]
      have hidx : ∀ j, k + (j + 1) = k + 1 + j := fun j => by omega
      rcases ih (k + 1) s1 with ⟨n, hn, hbefore, hlast, hres⟩ | ⟨hall, hres⟩
      · left
        refine ⟨n + 1, Nat.succ_lt_succ hn, ?_, ?_, ?_⟩
        · intro j hj
          cases j with
          | zero => simpa [passFrom] using ho
          | succ j =>
            rw [hshift, hidx j]
            exact hbefore j (Nat.lt_of_succ_lt_succ hj)
        · rw [hshift, hidx n]
          exact hlast
        · rw [hstep, hres, hshift, hidx n]
      · right
        refine ⟨?_, ?_⟩
        · intro j hj
          cases j with
          | zero => simpa [passFrom] using ho
          | succ j =>
            rw [hshift, hidx j]
            exact hall j (Nat.lt_of_succ_lt_succ hj)
        · rw [hstep, hres, hshift]

theorem passFrom_calls (cfg : SplitterConfig) (hp : Helpers) (faults : Nat → Faults)
    (msg : Message) :
    ∀ (n k : Nat) (s : LoopState),
      (∀ j, j < n →
        (attempt cfg hp (faults (k + j)) msg (passFrom cfg hp faults msg k s j)).2
          = Outcome.retry) →
      ∃ xs, (passFrom cfg hp faults msg k s n).calls = s.calls ++ xs ∧ unmarked xs := by
  intro n
  induction n with
  | zero =>
    intro k s _
    exact ⟨[], by simp [passFrom], fun o ho => by simp at ho⟩
  | succ n ih =>
    intro k s hall
    have h0 : (attempt cfg hp (faults k) msg s).2 = Outcome.retry := by
      simpa [passFrom] using hall 0 (Nat.succ_pos n)
    obtain ⟨new, hnew, _, hret, _⟩ := attempt_calls cfg hp (faults k) msg s
    have hidx : ∀ j, k + (j + 1) = k + 1 + j := fun j => by omega
    obtain ⟨xs, hxs, hun⟩ := ih (k + 1) (attempt cfg hp (faults k) msg s).1 (by
      intro j hj
      have := hall (j + 1) (Nat.succ_lt_succ hj)
      simp only [passFrom] at this
      rw [hidx j] at this
      exact this)
    refine ⟨new ++ xs, ?_, unmarked_append.2 ⟨hret h0, hun⟩⟩
    simp only [passFrom]
    rw [hxs, hnew, List.append_assoc]

/-- C10. In every iteration of the ingestion loop each `MarkOffset` comes directly
after a successful return of `SaveBlock`, and an offset is marked only if the loop moved
on from a pass `n` in which the message decoded to a block `B`, persistence was enabled
and `SaveBlock`, run on the store of that pass, returned no error, every earlier pass
having ended in a retry.  In every pass: a decode failure marks no offset and retries; a
failed linkage check for a block of non-zero height (not in `missedBlockList`) marks no
offset, leaves the store alone and moves on; an error return of `SaveBlock` marks no
offset and retries; an offset is marked only when `SaveBlock` returned no error, it is
the offset of the message, and when `SaveBlock` is reached the calls of the pass are the
re-emit requests of the check, then those of `SaveBlock`, then the mark exactly when
`SaveBlock` returned no error. -/
theorem offset_commit_discipline (cfg : SplitterConfig) (hp : Helpers)
    (faults : Nat → Faults) (pass : Faults) (msg : Message) (fuel : Nat) (s : LoopState) :
    (∃ new, (iteration cfg hp faults msg fuel s).1.calls = s.calls ++ new ∧
      markedAfterSave new ∧
      (∀ o, Call.MarkOffset o ∈ new →
        o = msg.Offset ∧ (iteration cfg hp faults msg fuel s).2 = true ∧
        ∃ n B, n < fuel ∧ hp.ParseBlock msg.Data = some B ∧ cfg.DatabaseEnable = true ∧
          (∀ j, j < n →
            (attempt cfg hp (faults j) msg (passStart cfg hp faults msg s j)).2
              = Outcome.retry) ∧
          (iteration cfg hp faults msg fuel s).1
            = (attempt cfg hp (faults n) msg (passStart cfg hp faults msg s n)).1 ∧
          (SaveBlock cfg hp (faults n) (passStart cfg hp faults msg s n).db
            (validatedStats cfg hp msg (passStart cfg hp faults msg s n).stats) B).err
            = none)) ∧
    (∃ new, (attempt cfg hp pass msg s).1.calls = s.calls ++ new ∧
      markedAfterSave new ∧
      (hp.ParseBlock msg.Data = none →
        unmarked new ∧ (attempt cfg hp pass msg s).2 = Outcome.retry) ∧
      (∀ B, hp.ParseBlock msg.Data = some B → B.Block.Height ∉ s.missedBlockList →
        B.Block.Height ≠ 0 → (CheckBlock cfg pass s.db B).ok = false →
        unmarked new ∧ (attempt cfg hp pass msg s).2 = Outcome.next ∧
          (attempt cfg hp pass msg s).1.db = s.db) ∧
      (Call.SaveBlockReturned false ∈ new →
        unmarked new ∧ (attempt cfg hp pass msg s).2 = Outcome.retry) ∧
      (∀ o, Call.MarkOffset o ∈ new →
        o = msg.Offset ∧ Call.SaveBlockReturned true ∈ new) ∧
      (∀ B, hp.ParseBlock msg.Data = some B →
        (∀ o, Call.MarkOffset o ∈ new →
          cfg.DatabaseEnable = true ∧
          (SaveBlock cfg hp pass s.db (validatedStats cfg hp msg s.stats) B).err = none ∧
          (attempt cfg hp pass msg s).2 = Outcome.next) ∧
        ((SaveBlock cfg hp pass s.db (validatedStats cfg hp msg s.stats) B).err ≠ none →
          unmarked new) ∧
        (cfg.DatabaseEnable = true →
          (B.Block.Height ∈ s.missedBlockList ∨ B.Block.Height = 0 ∨
            (CheckBlock cfg pass s.db B).ok = true) →
          new = (if B.Block.Height ∈ s.missedBlockList then []
                else (CheckBlock cfg pass s.db B).calls) ++
              [Call.SaveBlock B.Block.Height] ++
              (SaveBlock cfg hp pass s.db (validatedStats cfg hp msg s.stats) B).calls ++
              (if (SaveBlock cfg hp pass s.db (validatedStats cfg hp msg s.stats) B).err = none
                then [Call.SaveBlockReturned true, Call.MarkOffset msg.Offset]
                else [Call.SaveBlockReturned false]) ∧
            (attempt cfg hp pass msg s).2 =
              (if (SaveBlock cfg hp pass s.db (validatedStats cfg hp msg s.stats) B).err = none
                then Outcome.next else Outcome.retry)))) := by
  constructor
  · obtain ⟨new, hnew, hmk⟩ := retryLoop_calls cfg hp faults msg fuel 0
      { s with stats := { s.stats with receive_messages := s.stats.receive_messages + 1 } }
    have hnew1 : (iteration cfg hp faults msg fuel s).1.calls = s.calls ++ new := hnew
    refine ⟨new, hnew1, hmk, ?_⟩
    intro o ho
    rcases retryLoop_passes cfg hp faults msg fuel 0
      { s with stats := { s.stats with receive_messages := s.stats.receive_messages + 1 } }
      with ⟨n, hn, hbefore, hlast, hres⟩ | ⟨hall, hres⟩
    · simp only [Nat.zero_add] at hbefore hlast hres
      have hres1 : iteration cfg hp faults msg fuel s =
          ((attempt cfg hp (faults n) msg (passStart cfg hp faults msg s n)).1, true) := hres
      obtain ⟨xs, hxs, hun⟩ := passFrom_calls cfg hp faults msg n 0
        { s with stats := { s.stats with receive_messages := s.stats.receive_messages + 1 } }
        (by simpa only [Nat.zero_add] using hbefore)
      have hxs1 : (passStart cfg hp faults msg s n).calls = s.calls ++ xs := hxs
      obtain ⟨new2, hnew2, _, _, hnone, _⟩ :=
        attempt_calls cfg hp (faults n) msg (passStart cfg hp faults msg s n)
      have hboth : s.calls ++ new = s.calls ++ (xs ++ new2) := by
        rw [← hnew1, hres1, hnew2, hxs1, List.append_assoc]
      have hsplit : new = xs ++ new2 := List.append_cancel_left hboth
      have ho2 : Call.MarkOffset o ∈ new2 := by
        rw [hsplit] at ho
        rcases List.mem_append.1 ho with h | h
        · exact absurd h (hun o)
        · exact h
      cases hparse : hp.ParseBlock msg.Data with
      | none => exact absurd ho2 ((hnone hparse).1 o)
      | some B =>
        obtain ⟨hmark, _⟩ := attempt_mark cfg hp (faults n) msg
          (passStart cfg hp faults msg s n) B new2 hparse hnew2
        obtain ⟨h1, h2, h3, _⟩ := hmark o ho2
        refine ⟨h1, by rw [hres1], n, B, hn, rfl, h2, hbefore, by rw [hres1], h3⟩
    · obtain ⟨xs, hxs, hun⟩ := passFrom_calls cfg hp faults msg fuel 0
        { s with stats := { s.stats with receive_messages := s.stats.receive_messages + 1 } }
        hall
      have hres1 : iteration cfg hp faults msg fuel s =
          (passStart cfg hp faults msg s fuel, false) := hres
      have hxs1 : (passStart cfg hp faults msg s fuel).calls = s.calls ++ xs := hxs
      have hboth : s.calls ++ new = s.calls ++ xs := by
        rw [← hnew1, hres1, hxs1]
      have hsplit : new = xs := List.append_cancel_left hboth
      rw [hsplit] at ho
      exact absurd ho (hun o)
  · obtain ⟨new, h1, h2, _, h4, h5, h6, h7⟩ := attempt_calls cfg hp pass msg s
    refine ⟨new, h1, h2, h4, h5, h6, h7, ?_⟩
    intro B hparse
    obtain ⟨hmark, herr⟩ := attempt_mark cfg hp pass msg s B new hparse h1
    obtain ⟨hreach, _⟩ := attempt_trace cfg hp pass msg s B hparse
    refine ⟨fun o ho => (hmark o ho).2, herr, ?_⟩
    intro hd hr
    obtain ⟨hc, hout⟩ := hreach hd hr
    rw [h1] at hc
    exact ⟨List.append_cancel_left hc, hout⟩

/-! ## Overlay revert inside the reorganisation -/

theorem RevertBlock_overlay_tables {hp : Helpers} {faults : Faults} {i : Int} {tx tx1 : Store}
    (h : RevertBlock hp faults i tx = Except.ok tx1) :
    tx1.btc_tether_address = tx.btc_tether_address ∧
      tx1.btc_omni_transaction
        = tx.btc_omni_transaction.filter (fun o => decide (o.BlockHeight ≠ i)) := by
  unfold RevertBlock at h
  split_ifs at h
  cases h
  exact ⟨rfl, rfl⟩

theorem blocksAt_filter_ne (blocks : List Block) (i : Int) :
    blocksAt (blocks.filter (fun b => decide (b.Height ≠ i))) i = [] := by
  apply blocksAt_eq_nil
  intro b hb
  simpa using (List.mem_filter.1 hb).2

theorem touchedAddresses_filter_ne (omni : List OmniTansaction) (i : Int) :
    touchedAddresses (omni.filter (fun o => decide (o.BlockHeight ≠ i))) i = [] := by
  have hnil : (omni.filter (fun o => decide (o.BlockHeight ≠ i))).filter
      (fun o => decide (o.BlockHeight = i)) = [] := by
    apply List.eq_nil_iff_forall_not_mem.2
    intro o ho
    have h1 := List.mem_filter.1 ho
    have h2 := (List.mem_filter.1 h1.1).2
    have h3 := h1.2
    simp only [decide_eq_true_eq] at h2 h3
    exact h2 h3
  unfold touchedAddresses
  rw [hnil]
  rfl

/-- Once no block and no overlay transaction is stored at the height,
`RevertTetherAddress` changes nothing: its scalar sub-select is NULL, so no row is
deleted, and no address is selected, so no balance is fetched and no row inserted. -/
theorem RevertTetherAddress_nothing_stored {hp : Helpers} {faults : Faults} {i : Int}
    {tx tx2 : Store} (hblock : blocksAt tx.btc_block i = [])
    (homni : touchedAddresses tx.btc_omni_transaction i = [])
    (h : RevertTetherAddress hp faults i tx = Except.ok tx2) : tx2 = tx := by
  unfold RevertTetherAddress at h
  rw [hblock] at h
  simp only [homni, List.not_mem_nil, false_and, exists_false, not_false_eq_true,
    decide_True, decide_False, List.filter_true, List.filter_false, fetchBalances,
    List.append_nil] at h
  split_ifs at h
  cases h
  rfl

/-- In the order in which the loop of `SaveBlock` calls them, `RevertBlock(i)` then
`RevertTetherAddress(i)`, the pair leaves `btc_tether_address` exactly as it was, for
every store and every height. -/
theorem revert_pair_tether {hp : Helpers} {faults : Faults} {i : Int} {tx tx1 tx2 : Store}
    (h1 : RevertBlock hp faults i tx = Except.ok tx1)
    (h2 : RevertTetherAddress hp faults i tx1 = Except.ok tx2) :
    tx2.btc_tether_address = tx.btc_tether_address := by
  obtain ⟨ht, ho⟩ := RevertBlock_overlay_tables h1
  have hb := RevertBlock_blocks h1
  have hnil1 : blocksAt tx1.btc_block i = [] := by
    rw [hb]
    exact blocksAt_filter_ne _ _
  have hnil2 : touchedAddresses tx1.btc_omni_transaction i = [] := by
    rw [ho]
    exact touchedAddresses_filter_ne _ _
  rw [RevertTetherAddress_nothing_stored hnil1 hnil2 h2, ht]

theorem revertLoop_tether {cfg : SplitterConfig} {hp : Helpers} {faults : Faults} :
    ∀ (hs : List Int) (s s1 : TxState), revertLoop cfg hp faults hs s = Except.ok s1 →
      s1.tx.btc_tether_address = s.tx.btc_tether_address := by
  intro hs
  induction hs with
  | nil =>
    intro s s1 h
    simp only [revertLoop, Except.ok.injEq] at h
    rw [h]
  | cons i rest ih =>
    intro s s1 h
    simp only [revertLoop] at h
    split at h
    · cases h
    · rename_i tx1 h1
      split_ifs at h
      · split at h
        · cases h
        · rename_i tx2 h2
          rw [ih _ _ h]
          exact revert_pair_tether h1 h2
      · rw [ih _ _ h]
        exact (RevertBlock_overlay_tables h1).1

/-- C11 fails on the code: with the overlay enabled and block `h101` (timestamp
1600000101, one overlay transaction from `A` to `B`) replaced by a competing block,
the pair `RevertBlock(101)`, `RevertTetherAddress(101)` runs and leaves
`btc_tether_address` untouched: the row of `A`, born in the reverted block, remains,
and the row of `B`, touched at height 101, keeps its stored balance 50 although the
overlay RPC reports 40.  The table is still so after `SaveBlock` has committed. -/
theorem RevertTetherAddress_after_RevertBlock :
    (overlayConfig 100).OmniEnable = true ∧
    blocksAt overlayStore.btc_block 101 = [header 101 "h101" "h100"] ∧
    heightsDown 101 101 = [101] ∧
    (revertLoop (overlayConfig 100) overlayHelpers noFaults (heightsDown 101 101)
        ⟨overlayStore, zeroStats, []⟩).toOption.map (fun s => s.calls)
      = some [Call.RevertBlock 101, Call.RevertTetherAddress 101] ∧
    (revertLoop (overlayConfig 100) overlayHelpers noFaults (heightsDown 101 101)
        ⟨overlayStore, zeroStats, []⟩).toOption.map (fun s => s.tx.btc_tether_address)
      = some [⟨"A", (header 101 "h101" "h100").Timestamp, 1600000101, 5⟩,
              ⟨"B", 1600000050, 1600000101, 50⟩] ∧
    "B" ∈ touchedAddresses overlayStore.btc_omni_transaction 101 ∧
    overlayHelpers.GetTetherBalance "B" = 40 ∧
    (SaveBlock (overlayConfig 100) overlayHelpers noFaults overlayStore zeroStats
        (message (header 101 "h101b" "h100"))).err = none ∧
    (SaveBlock (overlayConfig 100) overlayHelpers noFaults overlayStore zeroStats
        (message (header 101 "h101b" "h100"))).calls
      = [Call.RevertBlock 101, Call.RevertTetherAddress 101, Call.Commit] ∧
    (SaveBlock (overlayConfig 100) overlayHelpers noFaults overlayStore zeroStats
        (message (header 101 "h101b" "h100"))).db.btc_tether_address
      = [⟨"A", (header 101 "h101" "h100").Timestamp, 1600000101, 5⟩,
         ⟨"B", 1600000050, 1600000101, 50⟩] := by
  decide

end Bds
